/-
  Verification of the VM state manager and idle watcher of the
  caddy-slicervm repository (state.go and the idle-watcher file).

  The development has two layers:

  * a pure, per-operation embedding of each method of `vmStateManager`
    (`lookup`, the `ensureRunning` switch, the lock section of
    `initiateWake`, `finishWake`, `touchLastSeen`, `idleApps`,
    `markPaused`, `getHostname`) as functions over an association-list
    manager state, and

  * an interleaving small-step model (`Sys`, `Act`, `step`) whose atomic
    steps are the mutex-protected sections of the Go code plus the
    genuinely unlocked reads (`ensureRunning`'s status read, and
    `waitForWake`'s reads of `wakeErr`/`ip` after the wake channel
    fires), over which the reachability invariants are proved.

  Machine integers of the source (the `vmStatus` int, `time.Time` /
  `time.Duration` int64 nanoseconds) are modelled as `Nat` / `Int`;
  the durations involved are far below the 2^63 overflow bound, so no
  modular reduction is modelled.  Go `error` values are modelled as
  `Option String` (`none` = nil).
-/
import Mathlib

namespace Slicer

/-! ## Status constants (state.go lines 14-22)

`vmStatus` is a Go `int`; we keep it as a `Nat` so that the final
"unexpected status" branch of `ensureRunning` is a real branch of the
model (claim C10), not something excluded by the type. -/

def statusUnknown : Nat := 0
def statusRunning : Nat := 1
def statusPaused : Nat := 2
def statusWaking : Nat := 3
def statusNotFound : Nat := 4

/-- `vmInfo` (state.go lines 24-35).  `wakeCh` is a channel identity:
`none` models a nil channel, `some c` a channel allocated with identity
`c`; whether `c` has been closed is global information kept in the
system state of the concurrent model. `lastSeen` is a timestamp
(int64 nanoseconds, modelled as `Int`; the Go zero time is `0`). -/
structure VmInfo where
  hostname : String
  ip : String
  status : Nat
  lastSeen : Int
  wakeCh : Option Nat
  wakeErr : Option String
deriving DecidableEq, Repr

/-- One node as returned by the control plane's describe call
(`GetHostGroupNodes`): hostname, IP and remote status string. -/
structure Node where
  hostname : String
  ip : String
  status : String
deriving DecidableEq, Repr

/-- The status mapping of lookup's switch (state.go lines 89-96). -/
def nodeStatusToVm (s : String) : Nat :=
  if s = "Running" then statusRunning
  else if s = "Paused" then statusPaused
  else statusUnknown

/-! ## The manager's map (state.go line 40)

`m.vms` is modelled as an association list with distinct keys; the
in-place mutation of a `*vmInfo` obtained from the map is modelled by
`setKey`, which is adequate because entries are inserted at most once
and never removed, so a pointer and its map entry always coincide. -/

abbrev Key := String
abbrev Mgr := List (Key × VmInfo)

/-- Reading `m.vms[appName]`. -/
def lookupKey : Mgr → Key → Option VmInfo
  | [], _ => none
  | (k2, v) :: rest, k => if k2 = k then some v else lookupKey rest k

/-- Mutation of the record stored under `k` (a pointer write in Go). -/
def setKey : Mgr → Key → VmInfo → Mgr
  | [], _, _ => []
  | (k2, v2) :: rest, k, v =>
      if k2 = k then (k2, v) :: rest else (k2, v2) :: setKey rest k v

/-- Insertion of a fresh record (`m.vms[appName] = info`, only ever done
when the key is absent). -/
def insertKey (m : Mgr) (k : Key) (v : VmInfo) : Mgr := (k, v) :: m

/-! ## The manager's operations, one pure function per method

Each function is the state.go method with the mutex elided (the whole
method body of the short methods is one critical section; `lookup`'s
describe call is passed in as `dr`, and whether the describe call was
made is returned as the final `Bool`). -/

/-- `lookup` (state.go lines 54-99).  `dr` is the outcome of the
`GetHostGroupNodes` describe call, consulted only on a cache miss; the
returned `Bool` records whether describe was invoked.  `now` is the
`time.Now()` value used for `lastSeen` of a freshly created record. -/
def lookup (m : Mgr) (k : Key) (dr : Except String (List Node)) (now : Int) :
    Mgr × Except String VmInfo × Bool :=
  match lookupKey m k with
  | some info => (m, .ok info, false)
  | none =>
    match dr with
    | .error e =>
        (m, .error ("fetching host group \"" ++ k ++ "\": " ++ e), true)
    | .ok [] =>
        let info : VmInfo := ⟨"", "", statusNotFound, 0, none, none⟩
        (insertKey m k info, .ok info, true)
    | .ok (node :: _) =>
        let info : VmInfo :=
          ⟨node.hostname, node.ip, nodeStatusToVm node.status, now, none, none⟩
        (insertKey m k info, .ok info, true)

/-- The outcome of `ensureRunning`'s switch (state.go lines 110-121). -/
inductive Dispatch where
  | notFound
  | ran (ip : String)
  | waitWake
  | doInitiate
  | unexpected
deriving DecidableEq, Repr

/-- `ensureRunning`'s switch on the record's status (state.go lines
110-121): NotFound fails, Running returns the cached ip, Waking waits,
Paused/Unknown initiate a wake, anything else hits the final
"unexpected status" error. -/
def ensureRunningSwitch (info : VmInfo) : Dispatch :=
  if info.status = statusNotFound then .notFound
  else if info.status = statusRunning then .ran info.ip
  else if info.status = statusWaking then .waitWake
  else if info.status = statusPaused ∨ info.status = statusUnknown then .doInitiate
  else .unexpected

/-- Which branch the lock section of `initiateWake` took. -/
inductive InitOut where
  | wait
  | ran (ip : String)
  | started
deriving DecidableEq, Repr

/-- The mutex-protected section of `initiateWake` (state.go lines
125-140): re-check under lock; if Waking, join the existing wake; if
Running, return the ip; otherwise transition to Waking with a fresh
wake channel `fresh` and a cleared `wakeErr` (a `go doWake` resume call
is then issued, which the concurrent model records). -/
def initiateWake (m : Mgr) (k : Key) (fresh : Nat) : Mgr × InitOut :=
  match lookupKey m k with
  | none => (m, .wait)
  | some info =>
    if info.status = statusWaking then (m, .wait)
    else if info.status = statusRunning then (m, .ran info.ip)
    else
      (setKey m k { info with status := statusWaking, wakeCh := some fresh,
                              wakeErr := none }, .started)

/-- `finishWake` (state.go lines 174-195) minus the channel close,
which is part of the concurrent model: store the resume error, set the
status to Running on success and Paused on failure; a missing record is
a no-op. -/
def finishWake (m : Mgr) (k : Key) (err : Option String) : Mgr :=
  match lookupKey m k with
  | none => m
  | some info =>
      let st := if err = none then statusRunning else statusPaused
      setKey m k { info with wakeErr := err, status := st }

/-- `touchLastSeen` (state.go lines 197-203): set `lastSeen` to now if
the record exists, whatever its status. -/
def touchLastSeen (m : Mgr) (k : Key) (now : Int) : Mgr :=
  match lookupKey m k with
  | none => m
  | some info => setKey m k { info with lastSeen := now }

/-- `idleApps` (state.go lines 205-217): the keys of records that are
Running and whose `lastSeen` is strictly older than `timeout`. -/
def idleApps (m : Mgr) (now timeout : Int) : List Key :=
  (m.filter
    (fun p => decide (p.2.status = statusRunning ∧ now - p.2.lastSeen > timeout))).map
    Prod.fst

/-- `markPaused` (state.go lines 219-225): unconditionally set the
status of an existing record to Paused. -/
def markPaused (m : Mgr) (k : Key) : Mgr :=
  match lookupKey m k with
  | none => m
  | some info => setKey m k { info with status := statusPaused }

/-- `getHostname` (state.go lines 227-234). -/
def getHostname (m : Mgr) (k : Key) : String :=
  match lookupKey m k with
  | none => ""
  | some info => info.hostname

/-! ## The idle watcher's loop shape (idle-watcher file, lines 42-69)

`runIdleWatcher` installs a deferred `recover` at function scope and
then loops on the ticker, calling `pauseIdleVMs` on every tick.  A
panicking tick therefore unwinds the loop; the deferred function
recovers and logs, and `runIdleWatcher` returns, so no further tick
runs.  `ticksFault` lists, for each scheduled ticker interval, whether
the tick body would hit an internal fault; the result is the number of
tick bodies that actually start and whether the watcher goroutine is
still alive afterwards. -/
def runIdleWatcher : List Bool → Nat × Bool
  | [] => (0, true)
  | tickFaults :: rest =>
      if tickFaults then (1, false)
      else
        let r := runIdleWatcher rest
        (r.1 + 1, r.2)

/-! ## The interleaving model

Atomic steps are the mutex-protected sections of state.go, plus the
unlocked reads performed by `ensureRunning` (line 110, the switch reads
`info.status` without the lock) and by `waitForWake` (lines 153-157:
the select first observes the channel, then — possibly after being
rescheduled — reads `info.wakeErr` and `info.ip` without the lock).
The idle watcher's tick is decomposed into its non-atomic parts:
reading `idleApps`, then per key calling `PauseVM` over the network
outside the lock, then `markPaused` (idle-watcher file lines 71-99). -/

/-- Program counter of one `ensureRunning` caller that has not yet
returned: it has read Paused/Unknown in the switch and will run
`initiateWake`'s lock section (`dispatchedInit`), or it is about to
execute `waitForWake`'s select, which reads the record's current
`wakeCh` (`toWait`), or it is blocked in the select on channel `c`
(`waiting`). -/
inductive TState where
  | dispatchedInit (k : Key)
  | toWait (k : Key)
  | waiting (k : Key) (c : Nat)
deriving DecidableEq, Repr

/-- Result delivered to one `ensureRunning` caller. -/
inductive RRes where
  | okIp (ip : String)
  | wakeFailed (e : String)
  | timedOut
deriving DecidableEq, Repr

/-- Global state of the interleaving model: the manager's map, the
in-flight `ensureRunning` callers and their delivered results, the
multiset of keys with an in-flight `doWake` goroutine, the log of
`ResumeVM` calls issued (key and wake-channel identity), the closed
wake channels with the `(wakeErr, ip)` values at close time, and the
idle watcher's tick worklist (`watcherQueue`) and the key whose
`PauseVM` network call is in flight (`watcherCur`). -/
structure Sys where
  vms : Mgr
  threads : List (Nat × TState)
  results : List (Nat × RRes)
  pending : List Key
  resumeLog : List (Key × Nat)
  chOut : List (Nat × Option String × String)
  watcherQueue : List Key
  watcherCur : Option Key
  nextCh : Nat
  nextT : Nat
deriving DecidableEq, Repr

def threadLookup : List (Nat × TState) → Nat → Option TState
  | [], _ => none
  | (t2, st) :: rest, t => if t2 = t then some st else threadLookup rest t

def setThread : List (Nat × TState) → Nat → TState → List (Nat × TState)
  | [], _, _ => []
  | (t2, st2) :: rest, t, st =>
      if t2 = t then (t2, st) :: setThread rest t st
      else (t2, st2) :: setThread rest t st

def removeThread : List (Nat × TState) → Nat → List (Nat × TState)
  | [], _ => []
  | (t2, st2) :: rest, t =>
      if t2 = t then removeThread rest t else (t2, st2) :: removeThread rest t

def chLookup : List (Nat × Option String × String) → Nat →
    Option (Option String × String)
  | [], _ => none
  | (c2, v) :: rest, c => if c2 = c then some v else chLookup rest c

/-- Whether channel `c` has been closed, and the `(wakeErr, ip)` of its
record at the moment `close` ran. -/
def chOutcome (s : Sys) (c : Nat) : Option (Option String × String) :=
  chLookup s.chOut c

def resultLookup : List (Nat × RRes) → Nat → Option RRes
  | [], _ => none
  | (t2, r) :: rest, t => if t2 = t then some r else resultLookup rest t

/-- The actions of the model.  Parameters carry the environment's
nondeterminism: describe results, resume/pause outcomes, clock values. -/
inductive Act where
  /-- `lookup` slow path (lines 69-98): after a successful describe
  returning `nodes`, take the lock, re-check, and insert if still
  absent.  (A describe failure and the cache-hit fast path change no
  state.) -/
  | lookupInsert (k : Key) (nodes : List Node) (now : Int)
  /-- `ensureRunning`'s unlocked switch read found Paused/Unknown
  (lines 117-118): a new caller heads for `initiateWake`. -/
  | dispatchInit (k : Key)
  /-- `ensureRunning`'s unlocked switch read found Waking (lines
  115-116): a new caller heads for `waitForWake`. -/
  | dispatchWait (k : Key)
  /-- The lock section of `initiateWake` (lines 125-140) run by caller
  `t`, including issuing `go doWake` in the started case (line 143). -/
  | initLock (t : Nat)
  /-- `waitForWake`'s select reads the record's current `wakeCh`
  (line 153). -/
  | attach (t : Nat)
  /-- Caller `t`'s select fired on its closed channel; it reads the
  record's current `wakeErr` and `ip` without the lock (lines 153-157). -/
  | waiterReturn (t : Nat)
  /-- Caller `t`'s own timer or context fired (lines 158-161). -/
  | waiterTimeout (t : Nat)
  /-- `doWake`'s `ResumeVM` call returned `err` and `finishWake` runs
  (lines 166-195), closing the record's current channel. -/
  | finish (k : Key) (err : Option String)
  /-- `touchLastSeen` (lines 197-203). -/
  | touch (k : Key) (now : Int)
  /-- A watcher tick begins: `pauseIdleVMs` reads `idleApps` (watcher
  file line 72); ticks never overlap. -/
  | tickStart (now : Int) (timeout : Int)
  /-- The watcher takes the next key of its worklist and reads
  `getHostname`; an empty hostname is skipped, otherwise its `PauseVM`
  network call starts (watcher file lines 73-84). -/
  | watcherTake
  /-- The in-flight `PauseVM` call returns; on success `markPaused`
  runs, on failure the key is skipped (watcher file lines 84-97). -/
  | watcherDone (ok : Bool)
deriving DecidableEq, Repr

def initSys : Sys := ⟨[], [], [], [], [], [], [], none, 0, 0⟩

/-- One atomic step; `none` means the action is not enabled. -/
def step (s : Sys) (a : Act) : Option Sys :=
  match a with
  | .lookupInsert k nodes now =>
      match lookupKey s.vms k with
      | some _ => some s
      | none =>
        match nodes with
        | [] =>
            some { s with
              vms := insertKey s.vms k ⟨"", "", statusNotFound, 0, none, none⟩ }
        | node :: _ =>
            some { s with
              vms := insertKey s.vms k
                ⟨node.hostname, node.ip, nodeStatusToVm node.status, now,
                  none, none⟩ }
  | .dispatchInit k =>
      match lookupKey s.vms k with
      | some info =>
          if info.status = statusPaused ∨ info.status = statusUnknown then
            some { s with threads := (s.nextT, .dispatchedInit k) :: s.threads,
                          nextT := s.nextT + 1 }
          else none
      | none => none
  | .dispatchWait k =>
      match lookupKey s.vms k with
      | some info =>
          if info.status = statusWaking then
            some { s with threads := (s.nextT, .toWait k) :: s.threads,
                          nextT := s.nextT + 1 }
          else none
      | none => none
  | .initLock t =>
      match threadLookup s.threads t with
      | some (.dispatchedInit k) =>
        match lookupKey s.vms k with
        | some info =>
          if info.status = statusWaking then
            some { s with threads := setThread s.threads t (.toWait k) }
          else if info.status = statusRunning then
            some { s with threads := removeThread s.threads t,
                          results := (t, .okIp info.ip) :: s.results }
          else
            let info2 : VmInfo :=
              { info with status := statusWaking, wakeCh := some s.nextCh,
                          wakeErr := none }
            some { s with
              vms := setKey s.vms k info2,
              pending := k :: s.pending,
              resumeLog := (k, s.nextCh) :: s.resumeLog,
              nextCh := s.nextCh + 1,
              threads := setThread s.threads t (.toWait k) }
        | none => none
      | _ => none
  | .attach t =>
      match threadLookup s.threads t with
      | some (.toWait k) =>
        match lookupKey s.vms k with
        | some info =>
          match info.wakeCh with
          | some c => some { s with threads := setThread s.threads t (.waiting k c) }
          | none => none
        | none => none
      | _ => none
  | .waiterReturn t =>
      match threadLookup s.threads t with
      | some (.waiting k c) =>
        match chOutcome s c with
        | some _ =>
          match lookupKey s.vms k with
          | some info =>
            let r := match info.wakeErr with
              | some e => RRes.wakeFailed e
              | none => RRes.okIp info.ip
            some { s with threads := removeThread s.threads t,
                          results := (t, r) :: s.results }
          | none => none
        | none => none
      | _ => none
  | .waiterTimeout t =>
      match threadLookup s.threads t with
      | some (.waiting _ _) =>
          some { s with threads := removeThread s.threads t,
                        results := (t, .timedOut) :: s.results }
      | _ => none
  | .finish k err =>
      if k ∈ s.pending then
        match lookupKey s.vms k with
        | none => some { s with pending := s.pending.erase k }
        | some info =>
          let st := if err = none then statusRunning else statusPaused
          let info2 := { info with wakeErr := err, status := st }
          match info2.wakeCh with
          | some c =>
              some { s with vms := setKey s.vms k info2,
                            pending := s.pending.erase k,
                            chOut := (c, err, info2.ip) :: s.chOut }
          | none =>
              some { s with vms := setKey s.vms k info2,
                            pending := s.pending.erase k }
      else none
  | .touch k now => some { s with vms := touchLastSeen s.vms k now }
  | .tickStart now timeout =>
      if s.watcherQueue = [] ∧ s.watcherCur = none then
        some { s with watcherQueue := idleApps s.vms now timeout }
      else none
  | .watcherTake =>
      match s.watcherCur, s.watcherQueue with
      | none, k :: rest =>
          if getHostname s.vms k = "" then some { s with watcherQueue := rest }
          else some { s with watcherQueue := rest, watcherCur := some k }
      | _, _ => none
  | .watcherDone ok =>
      match s.watcherCur with
      | some k =>
          if ok then some { s with vms := markPaused s.vms k, watcherCur := none }
          else some { s with watcherCur := none }
      | none => none

/-- Run a list of actions from `s`; fails if any is not enabled. -/
def runActs (s : Sys) : List Act → Option Sys
  | [] => some s
  | a :: rest =>
    match step s a with
    | some s2 => runActs s2 rest
    | none => none

/-- A state of the model the program can actually be in. -/
def Reachable (s : Sys) : Prop := ∃ acts, runActs initSys acts = some s

/-! ## The inductive invariant of reachable states

These are the facts that make the coalescing, the wake-channel
discipline and the state machine of the spec go through; they are
proved to hold in the initial state and to be preserved by every step. -/

structure Inv (s : Sys) : Prop where
  /-- Map keys are distinct (it models a Go map). -/
  keysNodup : (s.vms.map Prod.fst).Nodup
  /-- At most one `doWake` goroutine is in flight per key. -/
  pendCount : ∀ k, s.pending.count k ≤ 1
  /-- A `doWake` goroutine is in flight for `k` iff `k`'s record is
  Waking. -/
  pendWaking : ∀ k, k ∈ s.pending ↔
    ∃ info, lookupKey s.vms k = some info ∧ info.status = statusWaking
  /-- A Waking record carries an open (not yet closed) wake channel. -/
  wakingOpen : ∀ k info, lookupKey s.vms k = some info →
    info.status = statusWaking →
    ∃ c, info.wakeCh = some c ∧ chOutcome s c = none
  /-- A non-Waking record's wake channel, when present, is closed. -/
  nonWakingClosed : ∀ k info c, lookupKey s.vms k = some info →
    info.status ≠ statusWaking → info.wakeCh = some c → chOutcome s c ≠ none
  /-- As long as a record still holds the channel closed by its last
  wake, its `wakeErr`/`ip` agree with the values recorded at close. -/
  outMatches : ∀ k info c out, lookupKey s.vms k = some info →
    info.wakeCh = some c → chOutcome s c = some out →
    out = (info.wakeErr, info.ip)
  /-- Channel identities held by records were allocated. -/
  chFresh : ∀ k info c, lookupKey s.vms k = some info →
    info.wakeCh = some c → c < s.nextCh
  /-- Closed channel identities were allocated. -/
  outFresh : ∀ c out, chOutcome s c = some out → c < s.nextCh
  /-- A wake channel belongs to a single record. -/
  chOwner : ∀ k1 k2 i1 i2 c, lookupKey s.vms k1 = some i1 →
    lookupKey s.vms k2 = some i2 → i1.wakeCh = some c → i2.wakeCh = some c →
    k1 = k2
  /-- Resume calls reference allocated channels. -/
  logFresh : ∀ p, p ∈ s.resumeLog → p.2 < s.nextCh
  /-- At most one `ResumeVM` call is issued per wake channel (epoch). -/
  logNodup : (s.resumeLog.map Prod.snd).Nodup
  /-- A caller bound for `initiateWake` saw Paused/Unknown, so its key
  has a record that is not (and never becomes) NotFound. -/
  dispatchSafe : ∀ t k, threadLookup s.threads t = some (.dispatchedInit k) →
    ∃ info, lookupKey s.vms k = some info ∧ info.status ≠ statusNotFound
  /-- Keys in the watcher's tick worklist are Running. -/
  queueRunning : ∀ k, k ∈ s.watcherQueue →
    ∃ info, lookupKey s.vms k = some info ∧ info.status = statusRunning
  /-- The key whose `PauseVM` is in flight is Running. -/
  curRunning : ∀ k, s.watcherCur = some k →
    ∃ info, lookupKey s.vms k = some info ∧ info.status = statusRunning
  queueNodup : s.watcherQueue.Nodup
  curNotInQueue : ∀ k, s.watcherCur = some k → k ∉ s.watcherQueue
  /-- Every stored status is one of the five declared constants. -/
  statusRange : ∀ k info, lookupKey s.vms k = some info → info.status ≤ 4

/-! ## Concrete traces used to witness and refute the claims -/

/-- The cached record for `k` after running `acts` from the empty
initial state (`none` if the trace is not enabled). -/
def vmsAfter (acts : List Act) (k : Key) : Option (Option VmInfo) :=
  (runActs initSys acts).map (fun s => lookupKey s.vms k)

/-- The result delivered to `ensureRunning` caller `t` after running
`acts`. -/
def resultsAfter (acts : List Act) (t : Nat) : Option (Option RRes) :=
  (runActs initSys acts).map (fun s => resultLookup s.results t)

/-- The recorded close outcome of wake channel `c` after running
`acts`. -/
def chOutAfter (acts : List Act) (c : Nat) : Option (Option (Option String × String)) :=
  (runActs initSys acts).map (fun s => chOutcome s c)

/-- The interleaving refuting C1: a Paused record is created; caller 0
initiates the wake (channel 0) and blocks; caller 1 joins the same
wake; the resume fails with "boom" and `finishWake` closes channel 0;
caller 1 reads the error; caller 2 then begins a fresh wake, whose lock
section resets `wakeErr` to nil; only now does caller 0 — woken by the
same close of channel 0 but rescheduled late — perform `waitForWake`'s
unlocked read of `wakeErr`/`ip`, sees nil, and returns the address. -/
def c1trace : List Act :=
  [.lookupInsert "a" [⟨"h1", "10.0.0.5", "Paused"⟩] 0,
   .dispatchInit "a",
   .initLock 0,
   .attach 0,
   .dispatchWait "a",
   .attach 1,
   .finish "a" (some "boom"),
   .waiterReturn 1,
   .dispatchInit "a",
   .initLock 2,
   .waiterReturn 0]

/-- The trace refuting C3: one wake is initiated (channel 0) and
completes successfully; the record is Running but still carries the
(closed) channel in `wakeCh`, because `finishWake` closes the channel
without clearing the field. -/
def c3trace : List Act :=
  [.lookupInsert "a" [⟨"h1", "10.0.0.5", "Paused"⟩] 0,
   .dispatchInit "a",
   .initLock 0,
   .finish "a" none]

/-- A trace reaching a state whose record for "a" is Waking with the
open channel 0. -/
def c3waking : List Act :=
  [.lookupInsert "a" [⟨"h1", "10.0.0.5", "Paused"⟩] 0,
   .dispatchInit "a",
   .initLock 0]

/-- The state reached by `c3waking`. -/
def c3wakingState : Sys :=
  { vms := [("a", ⟨"h1", "10.0.0.5", statusWaking, 0, some 0, none⟩)],
    threads := [(0, .toWait "a")],
    results := [],
    pending := ["a"],
    resumeLog := [("a", 0)],
    chOut := [],
    watcherQueue := [],
    watcherCur := none,
    nextCh := 1,
    nextT := 1 }

/-- A trace creating a NotFound record for "a" (describe returned no
nodes). -/
def nfTrace : List Act := [.lookupInsert "a" [] 0]

/-- The state reached by `nfTrace`. -/
def nfState : Sys :=
  { vms := [("a", ⟨"", "", statusNotFound, 0, none, none⟩)],
    threads := [],
    results := [],
    pending := [],
    resumeLog := [],
    chOut := [],
    watcherQueue := [],
    watcherCur := none,
    nextCh := 0,
    nextT := 0 }

/-- The state reached by `nfTrace ++ [.touch "a" 5]`. -/
def nfTouchedState : Sys :=
  { vms := [("a", ⟨"", "", statusNotFound, 5, none, none⟩)],
    threads := [],
    results := [],
    pending := [],
    resumeLog := [],
    chOut := [],
    watcherQueue := [],
    watcherCur := none,
    nextCh := 0,
    nextT := 0 }

theorem lookupKey_insertKey (m : Mgr) (k k2 : Key) (v : VmInfo) :
    lookupKey (insertKey m k v) k2 = if k = k2 then some v else lookupKey m k2 := rfl

theorem lookupKey_setKey (m : Mgr) (k k2 : Key) (v : VmInfo) :
    lookupKey (setKey m k v) k2 =
      if k2 = k then (lookupKey m k).map (fun _ => v) else lookupKey m k2 := by
  induction m with
  | nil =>
    by_cases h : k2 = k <;> simp [lookupKey, setKey, h]
  | cons p rest ih =>
    obtain ⟨k0, v0⟩ := p
    by_cases h0 : k0 = k
    · subst h0
      by_cases h2 : k2 = k0
      · subst h2; simp [setKey, lookupKey]
      · have h2s : ¬ k0 = k2 := fun h => h2 h.symm
        simp [setKey, lookupKey, h2, h2s]
    · by_cases h2 : k2 = k0
      · subst h2
        simp [setKey, lookupKey, h0]
      · have h2s : ¬ k0 = k2 := fun h => h2 h.symm
        simp [setKey, lookupKey, h0, h2s, ih]

theorem setKey_keys (m : Mgr) (k : Key) (v : VmInfo) :
    (setKey m k v).map Prod.fst = m.map Prod.fst := by
  induction m with
  | nil => rfl
  | cons p rest ih =>
    obtain ⟨k0, v0⟩ := p
    by_cases h0 : k0 = k <;> simp [setKey, h0, ih]

theorem lookupKey_isSome_of_mem_keys (m : Mgr) (k : Key)
    (h : k ∈ m.map Prod.fst) : (lookupKey m k).isSome := by
  induction m with
  | nil => simp at h
  | cons p rest ih =>
    obtain ⟨k0, v0⟩ := p
    by_cases h0 : k0 = k
    · simp [lookupKey, h0]
    · simp [lookupKey, h0]
      rcases List.mem_cons.mp h with h1 | h1
      · exact absurd h1.symm h0
      · exact ih h1

theorem mem_keys_of_lookupKey (m : Mgr) (k : Key) (v : VmInfo)
    (h : lookupKey m k = some v) : k ∈ m.map Prod.fst := by
  induction m with
  | nil => simp [lookupKey] at h
  | cons p rest ih =>
    obtain ⟨k0, v0⟩ := p
    by_cases h0 : k0 = k
    · simp [h0]
    · simp [lookupKey, h0] at h
      simp [ih h]

/-! ## Auxiliary lookup lemmas for the modified maps -/

theorem threadLookup_setThread (ts : List (Nat × TState)) (t t2 : Nat)
    (st : TState) :
    threadLookup (setThread ts t st) t2 =
      if t2 = t then (threadLookup ts t).map (fun _ => st)
      else threadLookup ts t2 := by
  induction ts with
  | nil => by_cases h : t2 = t <;> simp [threadLookup, setThread, h]
  | cons p rest ih =>
    obtain ⟨t0, st0⟩ := p
    by_cases h0 : t0 = t
    · subst h0
      by_cases h2 : t2 = t0
      · subst h2; simp [setThread, threadLookup]
      · have h2s : ¬ t0 = t2 := fun h => h2 h.symm
        simp [setThread, threadLookup, h2, h2s, ih]
    · by_cases h2 : t2 = t0
      · subst h2
        simp [setThread, threadLookup, h0]
      · have h2s : ¬ t0 = t2 := fun h => h2 h.symm
        simp [setThread, threadLookup, h0, h2s, ih]

theorem threadLookup_removeThread (ts : List (Nat × TState)) (t t2 : Nat) :
    threadLookup (removeThread ts t) t2 =
      if t2 = t then none else threadLookup ts t2 := by
  induction ts with
  | nil => by_cases h : t2 = t <;> simp [threadLookup, removeThread, h]
  | cons p rest ih =>
    obtain ⟨t0, st0⟩ := p
    by_cases h0 : t0 = t
    · subst h0
      by_cases h2 : t2 = t0
      · subst h2
        simp [removeThread, threadLookup, ih]
      · have h2s : ¬ t0 = t2 := fun h => h2 h.symm
        simp [removeThread, threadLookup, ih, h2, h2s]
    · by_cases h2 : t2 = t0
      · subst h2
        have h2s : ¬ t2 = t := fun h => h0 h
        simp [removeThread, threadLookup, h0, h2s]
      · have h2s : ¬ t0 = t2 := fun h => h2 h.symm
        simp [removeThread, threadLookup, h0, h2s, ih]

theorem lookupKey_touchLastSeen (m : Mgr) (k k2 : Key) (now : Int) :
    lookupKey (touchLastSeen m k now) k2 =
      if k2 = k then (lookupKey m k).map (fun i => { i with lastSeen := now })
      else lookupKey m k2 := by
  unfold touchLastSeen
  cases hv : lookupKey m k with
  | none => by_cases h : k2 = k <;> simp [h, hv]
  | some info => simp [lookupKey_setKey, hv]

theorem lookupKey_markPaused (m : Mgr) (k k2 : Key) :
    lookupKey (markPaused m k) k2 =
      if k2 = k then (lookupKey m k).map (fun i => { i with status := statusPaused })
      else lookupKey m k2 := by
  unfold markPaused
  cases hv : lookupKey m k with
  | none => by_cases h : k2 = k <;> simp [h, hv]
  | some info => simp [lookupKey_setKey, hv]

theorem touchLastSeen_keys (m : Mgr) (k : Key) (now : Int) :
    (touchLastSeen m k now).map Prod.fst = m.map Prod.fst := by
  unfold touchLastSeen
  cases lookupKey m k <;> simp [setKey_keys]

theorem markPaused_keys (m : Mgr) (k : Key) :
    (markPaused m k).map Prod.fst = m.map Prod.fst := by
  unfold markPaused
  cases lookupKey m k <;> simp [setKey_keys]

/-- With distinct keys, `lookupKey` agrees with list membership. -/
theorem lookupKey_eq_iff_mem (m : Mgr) (k : Key) (v : VmInfo)
    (hnd : (m.map Prod.fst).Nodup) :
    lookupKey m k = some v ↔ (k, v) ∈ m := by
  induction m with
  | nil => simp [lookupKey]
  | cons p rest ih =>
    obtain ⟨k0, v0⟩ := p
    simp only [List.map_cons, List.nodup_cons] at hnd
    obtain ⟨hk0, hndr⟩ := hnd
    by_cases h0 : k0 = k
    · subst h0
      constructor
      · intro h
        have hv : v0 = v := by simpa [lookupKey] using h
        subst hv
        exact List.mem_cons.mpr (Or.inl rfl)
      · intro h
        rcases List.mem_cons.mp h with h1 | h1
        · obtain ⟨-, rfl⟩ := Prod.mk.injEq .. ▸ h1
          simp [lookupKey]
        · exact absurd (List.mem_map_of_mem Prod.fst h1) hk0
    · simp only [lookupKey, if_neg h0, List.mem_cons, Prod.mk.injEq]
      rw [ih hndr]
      constructor
      · exact fun h => Or.inr h
      · rintro (⟨h, -⟩ | hmem)
        · exact absurd h.symm h0
        · exact hmem

/-- Every key of `idleApps` carries a Running record that is idle, as
long as the map's keys are distinct. -/
theorem mem_idleApps (m : Mgr) (now timeout : Int) (k : Key)
    (hnd : (m.map Prod.fst).Nodup) :
    k ∈ idleApps m now timeout ↔
      ∃ info, lookupKey m k = some info ∧ info.status = statusRunning ∧
        now - info.lastSeen > timeout := by
  constructor
  · intro hk
    simp only [idleApps, List.mem_map] at hk
    obtain ⟨⟨k1, v⟩, hp, hfst⟩ := hk
    cases hfst
    rw [List.mem_filter] at hp
    obtain ⟨hmem, hpred⟩ := hp
    rw [decide_eq_true_eq] at hpred
    exact ⟨v, (lookupKey_eq_iff_mem _ _ _ hnd).mpr hmem, hpred.1, hpred.2⟩
  · rintro ⟨v, hv, h1, h2⟩
    have hmem := (lookupKey_eq_iff_mem _ _ _ hnd).mp hv
    simp only [idleApps, List.mem_map]
    exact ⟨(k, v), List.mem_filter.mpr ⟨hmem, by simp [h1, h2]⟩, rfl⟩

theorem idleApps_sub_keys (m : Mgr) (now timeout : Int) :
    ∀ k, k ∈ idleApps m now timeout → k ∈ m.map Prod.fst := by
  intro k hk
  simp only [idleApps, List.mem_map] at hk
  obtain ⟨p, hp, rfl⟩ := hk
  exact List.mem_map_of_mem _ (List.mem_of_mem_filter hp)

theorem idleApps_nodup (m : Mgr) (now timeout : Int)
    (hnd : (m.map Prod.fst).Nodup) : (idleApps m now timeout).Nodup := by
  unfold idleApps
  exact List.Nodup.sublist ((List.filter_sublist m).map Prod.fst) hnd

theorem lookupKey_setKey_self {m : Mgr} {k : Key} {v i0 : VmInfo}
    (h : lookupKey m k = some i0) : lookupKey (setKey m k v) k = some v := by
  simp [lookupKey_setKey, h]

theorem lookupKey_setKey_ne {m : Mgr} {k k2 : Key} (v : VmInfo) (h : ¬ k2 = k) :
    lookupKey (setKey m k v) k2 = lookupKey m k2 := by
  simp [lookupKey_setKey, h]

theorem lookupKey_setKey_cases {m : Mgr} {k k2 : Key} {v i2 : VmInfo}
    (h : lookupKey (setKey m k v) k2 = some i2) :
    (k2 = k ∧ i2 = v) ∨ (¬ k2 = k ∧ lookupKey m k2 = some i2) := by
  rw [lookupKey_setKey] at h
  by_cases hk : k2 = k
  · rw [if_pos hk] at h
    cases hv : lookupKey m k with
    | none => rw [hv] at h; simp at h
    | some i0 => rw [hv] at h; simp at h; exact Or.inl ⟨hk, h.symm⟩
  · rw [if_neg hk] at h
    exact Or.inr ⟨hk, h⟩

theorem lookupKey_insertKey_cases {m : Mgr} {k k2 : Key} {v i2 : VmInfo}
    (h : lookupKey (insertKey m k v) k2 = some i2) :
    (k = k2 ∧ i2 = v) ∨ (¬ k = k2 ∧ lookupKey m k2 = some i2) := by
  rw [lookupKey_insertKey] at h
  by_cases hk : k = k2
  · rw [if_pos hk] at h
    simp at h
    exact Or.inl ⟨hk, h.symm⟩
  · rw [if_neg hk] at h
    exact Or.inr ⟨hk, h⟩

theorem lookupKey_none_not_mem_keys {m : Mgr} {k : Key}
    (h : lookupKey m k = none) : k ∉ m.map Prod.fst := by
  intro hmem
  have := lookupKey_isSome_of_mem_keys m k hmem
  rw [h] at this
  simp at this

theorem nodeStatusToVm_le : ∀ s, nodeStatusToVm s ≤ 4 := by
  intro s
  unfold nodeStatusToVm statusRunning statusPaused statusUnknown
  split <;> [skip; split] <;> omega

theorem nodeStatusToVm_ne_waking : ∀ s, nodeStatusToVm s ≠ statusWaking := by
  intro s
  unfold nodeStatusToVm statusRunning statusPaused statusUnknown statusWaking
  split <;> [skip; split] <;> omega

theorem inv_init : Inv initSys := by
  constructor <;> simp [initSys, lookupKey, threadLookup, chOutcome, chLookup]

theorem inv_step_dispatchInit {s s' : Sys} {k : Key} (hInv : Inv s)
    (h : step s (.dispatchInit k) = some s') : Inv s' := by
  simp only [step] at h
  cases hv : lookupKey s.vms k with
  | none => simp only [hv] at h; cases h
  | some info =>
    simp only [hv] at h
    by_cases hst : info.status = statusPaused ∨ info.status = statusUnknown
    · rw [if_pos hst] at h
      injection h with h2
      subst h2
      refine ⟨hInv.keysNodup, hInv.pendCount, hInv.pendWaking, hInv.wakingOpen,
        hInv.nonWakingClosed, hInv.outMatches, hInv.chFresh, hInv.outFresh,
        hInv.chOwner, hInv.logFresh, hInv.logNodup, ?_, hInv.queueRunning,
        hInv.curRunning, hInv.queueNodup, hInv.curNotInQueue, hInv.statusRange⟩
      intro t2 k2 ht2
      simp only [threadLookup] at ht2
      by_cases ht : s.nextT = t2
      · rw [if_pos ht] at ht2
        injection ht2 with ht3
        cases ht3
        refine ⟨info, hv, ?_⟩
        rcases hst with hst | hst <;> rw [hst] <;> decide
      · rw [if_neg ht] at ht2
        exact hInv.dispatchSafe t2 k2 ht2
    · rw [if_neg hst] at h; cases h

theorem inv_step_dispatchWait {s s' : Sys} {k : Key} (hInv : Inv s)
    (h : step s (.dispatchWait k) = some s') : Inv s' := by
  simp only [step] at h
  cases hv : lookupKey s.vms k with
  | none => simp only [hv] at h; cases h
  | some info =>
    simp only [hv] at h
    by_cases hst : info.status = statusWaking
    · rw [if_pos hst] at h
      injection h with h2
      subst h2
      refine ⟨hInv.keysNodup, hInv.pendCount, hInv.pendWaking, hInv.wakingOpen,
        hInv.nonWakingClosed, hInv.outMatches, hInv.chFresh, hInv.outFresh,
        hInv.chOwner, hInv.logFresh, hInv.logNodup, ?_, hInv.queueRunning,
        hInv.curRunning, hInv.queueNodup, hInv.curNotInQueue, hInv.statusRange⟩
      intro t2 k2 ht2
      simp only [threadLookup] at ht2
      by_cases ht : s.nextT = t2
      · rw [if_pos ht] at ht2
        injection ht2 with ht3
        cases ht3
      · rw [if_neg ht] at ht2
        exact hInv.dispatchSafe t2 k2 ht2
    · rw [if_neg hst] at h; cases h

theorem inv_step_attach {s s' : Sys} {t : Nat} (hInv : Inv s)
    (h : step s (.attach t) = some s') : Inv s' := by
  simp only [step] at h
  cases hts : threadLookup s.threads t with
  | none => simp only [hts] at h; cases h
  | some tst =>
    simp only [hts] at h
    cases tst with
    | dispatchedInit k => simp at h
    | waiting k c => simp at h
    | toWait k =>
      cases hv : lookupKey s.vms k with
      | none => simp only [hv] at h; cases h
      | some info =>
        simp only [hv] at h
        cases hwc : info.wakeCh with
        | none => simp only [hwc] at h; cases h
        | some c =>
          simp only [hwc] at h
          injection h with h2
          subst h2
          refine ⟨hInv.keysNodup, hInv.pendCount, hInv.pendWaking, hInv.wakingOpen,
            hInv.nonWakingClosed, hInv.outMatches, hInv.chFresh, hInv.outFresh,
            hInv.chOwner, hInv.logFresh, hInv.logNodup, ?_, hInv.queueRunning,
            hInv.curRunning, hInv.queueNodup, hInv.curNotInQueue, hInv.statusRange⟩
          intro t2 k2 ht2
          rw [threadLookup_setThread] at ht2
          by_cases ht : t2 = t
          · rw [if_pos ht] at ht2
            cases htl : threadLookup s.threads t <;> rw [htl] at ht2 <;> simp at ht2
          · rw [if_neg ht] at ht2
            exact hInv.dispatchSafe t2 k2 ht2

theorem inv_step_waiterReturn {s s' : Sys} {t : Nat} (hInv : Inv s)
    (h : step s (.waiterReturn t) = some s') : Inv s' := by
  simp only [step] at h
  cases hts : threadLookup s.threads t with
  | none => simp only [hts] at h; cases h
  | some tst =>
    simp only [hts] at h
    cases tst with
    | dispatchedInit k => simp at h
    | toWait k => simp at h
    | waiting k c =>
      cases hco : chOutcome s c with
      | none => simp only [hco] at h; cases h
      | some out =>
        simp only [hco] at h
        cases hv : lookupKey s.vms k with
        | none => simp only [hv] at h; cases h
        | some info =>
          simp only [hv] at h
          injection h with h2
          subst h2
          refine ⟨hInv.keysNodup, hInv.pendCount, hInv.pendWaking, hInv.wakingOpen,
            hInv.nonWakingClosed, hInv.outMatches, hInv.chFresh, hInv.outFresh,
            hInv.chOwner, hInv.logFresh, hInv.logNodup, ?_, hInv.queueRunning,
            hInv.curRunning, hInv.queueNodup, hInv.curNotInQueue, hInv.statusRange⟩
          intro t2 k2 ht2
          rw [threadLookup_removeThread] at ht2
          by_cases ht : t2 = t
          · rw [if_pos ht] at ht2; cases ht2
          · rw [if_neg ht] at ht2
            exact hInv.dispatchSafe t2 k2 ht2

theorem inv_step_waiterTimeout {s s' : Sys} {t : Nat} (hInv : Inv s)
    (h : step s (.waiterTimeout t) = some s') : Inv s' := by
  simp only [step] at h
  cases hts : threadLookup s.threads t with
  | none => simp only [hts] at h; cases h
  | some tst =>
    simp only [hts] at h
    cases tst with
    | dispatchedInit k => simp at h
    | toWait k => simp at h
    | waiting k c =>
      injection h with h2
      subst h2
      refine ⟨hInv.keysNodup, hInv.pendCount, hInv.pendWaking, hInv.wakingOpen,
        hInv.nonWakingClosed, hInv.outMatches, hInv.chFresh, hInv.outFresh,
        hInv.chOwner, hInv.logFresh, hInv.logNodup, ?_, hInv.queueRunning,
        hInv.curRunning, hInv.queueNodup, hInv.curNotInQueue, hInv.statusRange⟩
      intro t2 k2 ht2
      rw [threadLookup_removeThread] at ht2
      by_cases ht : t2 = t
      · rw [if_pos ht] at ht2; cases ht2
      · rw [if_neg ht] at ht2
        exact hInv.dispatchSafe t2 k2 ht2

theorem touch_corr {m : Mgr} {k : Key} {now : Int} {k2 : Key} {info : VmInfo}
    (hlk : lookupKey (touchLastSeen m k now) k2 = some info) :
    ∃ i0, lookupKey m k2 = some i0 ∧ i0.hostname = info.hostname ∧
      i0.ip = info.ip ∧ i0.status = info.status ∧ i0.wakeCh = info.wakeCh ∧
      i0.wakeErr = info.wakeErr := by
  rw [lookupKey_touchLastSeen] at hlk
  by_cases hk : k2 = k
  · rw [if_pos hk] at hlk
    cases hv : lookupKey m k with
    | none => rw [hv] at hlk; cases hlk
    | some i0 =>
      rw [hv] at hlk
      have hlk2 : ({ i0 with lastSeen := now } : VmInfo) = info := by
        simpa using hlk
      subst hlk2
      subst hk
      exact ⟨i0, hv, rfl, rfl, rfl, rfl, rfl⟩
  · rw [if_neg hk] at hlk
    exact ⟨info, hlk, rfl, rfl, rfl, rfl, rfl⟩

theorem touch_corr_rev {m : Mgr} (k : Key) (now : Int) {k2 : Key} {i0 : VmInfo}
    (hlk : lookupKey m k2 = some i0) :
    ∃ info, lookupKey (touchLastSeen m k now) k2 = some info ∧
      i0.hostname = info.hostname ∧ i0.ip = info.ip ∧ i0.status = info.status ∧
      i0.wakeCh = info.wakeCh ∧ i0.wakeErr = info.wakeErr := by
  rw [lookupKey_touchLastSeen m k k2 now]
  by_cases hk : k2 = k
  · subst hk
    rw [if_pos rfl, hlk]
    exact ⟨{ i0 with lastSeen := now }, rfl, rfl, rfl, rfl, rfl, rfl⟩
  · rw [if_neg hk]
    exact ⟨i0, hlk, rfl, rfl, rfl, rfl, rfl⟩

theorem inv_step_touch {s s' : Sys} {k : Key} {now : Int} (hInv : Inv s)
    (h : step s (.touch k now) = some s') : Inv s' := by
  simp only [step] at h
  injection h with h2
  subst h2
  constructor
  · rw [show ({ s with vms := touchLastSeen s.vms k now } : Sys).vms =
        touchLastSeen s.vms k now from rfl, touchLastSeen_keys]
    exact hInv.keysNodup
  · exact hInv.pendCount
  · intro k2
    rw [hInv.pendWaking k2]
    constructor
    · rintro ⟨i0, hlk, hst⟩
      obtain ⟨info, hlk2, -, -, hst2, -, -⟩ := touch_corr_rev k now hlk
      exact ⟨info, hlk2, hst2 ▸ hst⟩
    · rintro ⟨info, hlk, hst⟩
      obtain ⟨i0, hlk0, -, -, hst0, -, -⟩ := touch_corr hlk
      exact ⟨i0, hlk0, hst0.trans hst⟩
  · intro k2 info hlk hst
    obtain ⟨i0, hlk0, -, -, hst0, hwc0, -⟩ := touch_corr hlk
    obtain ⟨c, hc, hopen⟩ := hInv.wakingOpen k2 i0 hlk0 (hst0.trans hst)
    exact ⟨c, hwc0 ▸ hc, hopen⟩
  · intro k2 info c hlk hst hwc
    obtain ⟨i0, hlk0, -, -, hst0, hwc0, -⟩ := touch_corr hlk
    exact hInv.nonWakingClosed k2 i0 c hlk0 (fun hh => hst (hst0 ▸ hh)) (hwc0 ▸ hwc)
  · intro k2 info c out hlk hwc hco
    obtain ⟨i0, hlk0, -, hip0, -, hwc0, hwe0⟩ := touch_corr hlk
    have := hInv.outMatches k2 i0 c out hlk0 (hwc0 ▸ hwc) hco
    rw [this, hwe0, hip0]
  · intro k2 info c hlk hwc
    obtain ⟨i0, hlk0, -, -, -, hwc0, -⟩ := touch_corr hlk
    exact hInv.chFresh k2 i0 c hlk0 (hwc0 ▸ hwc)
  · exact hInv.outFresh
  · intro k1 k2 i1 i2 c hlk1 hlk2 hwc1 hwc2
    obtain ⟨i10, hlk10, -, -, -, hwc10, -⟩ := touch_corr hlk1
    obtain ⟨i20, hlk20, -, -, -, hwc20, -⟩ := touch_corr hlk2
    exact hInv.chOwner k1 k2 i10 i20 c hlk10 hlk20 (hwc10 ▸ hwc1) (hwc20 ▸ hwc2)
  · exact hInv.logFresh
  · exact hInv.logNodup
  · intro t2 k2 ht2
    obtain ⟨i0, hlk0, hst0⟩ := hInv.dispatchSafe t2 k2 ht2
    obtain ⟨info, hlk2, -, -, hst2, -, -⟩ := touch_corr_rev k now hlk0
    exact ⟨info, hlk2, hst2 ▸ hst0⟩
  · intro k2 hk2
    obtain ⟨i0, hlk0, hst0⟩ := hInv.queueRunning k2 hk2
    obtain ⟨info, hlk2, -, -, hst2, -, -⟩ := touch_corr_rev k now hlk0
    exact ⟨info, hlk2, hst2 ▸ hst0⟩
  · intro k2 hk2
    obtain ⟨i0, hlk0, hst0⟩ := hInv.curRunning k2 hk2
    obtain ⟨info, hlk2, -, -, hst2, -, -⟩ := touch_corr_rev k now hlk0
    exact ⟨info, hlk2, hst2 ▸ hst0⟩
  · exact hInv.queueNodup
  · exact hInv.curNotInQueue
  · intro k2 info hlk
    obtain ⟨i0, hlk0, -, -, hst0, -, -⟩ := touch_corr hlk
    exact hst0 ▸ hInv.statusRange k2 i0 hlk0

theorem inv_step_tickStart {s s' : Sys} {now timeout : Int} (hInv : Inv s)
    (h : step s (.tickStart now timeout) = some s') : Inv s' := by
  simp only [step] at h
  by_cases hg : s.watcherQueue = [] ∧ s.watcherCur = none
  · rw [if_pos hg] at h
    injection h with h2
    subst h2
    refine ⟨hInv.keysNodup, hInv.pendCount, hInv.pendWaking, hInv.wakingOpen,
      hInv.nonWakingClosed, hInv.outMatches, hInv.chFresh, hInv.outFresh,
      hInv.chOwner, hInv.logFresh, hInv.logNodup, hInv.dispatchSafe, ?_, ?_,
      ?_, ?_, hInv.statusRange⟩
    · intro k2 hk2
      obtain ⟨info, hlk, hst, -⟩ :=
        (mem_idleApps s.vms now timeout k2 hInv.keysNodup).mp hk2
      exact ⟨info, hlk, hst⟩
    · intro k2 hk2
      rw [show ({ s with watcherQueue := idleApps s.vms now timeout } : Sys).watcherCur
          = s.watcherCur from rfl, hg.2] at hk2
      cases hk2
    · exact idleApps_nodup s.vms now timeout hInv.keysNodup
    · intro k2 hk2
      rw [show ({ s with watcherQueue := idleApps s.vms now timeout } : Sys).watcherCur
          = s.watcherCur from rfl, hg.2] at hk2
      cases hk2
  · rw [if_neg hg] at h; cases h

theorem inv_step_watcherTake {s s' : Sys} (hInv : Inv s)
    (h : step s .watcherTake = some s') : Inv s' := by
  simp only [step] at h
  cases hcur : s.watcherCur with
  | some k => simp only [hcur] at h; cases h
  | none =>
    cases hq : s.watcherQueue with
    | nil => simp only [hcur, hq] at h; cases h
    | cons k rest =>
      simp only [hcur, hq] at h
      have hkq : k ∈ s.watcherQueue := by rw [hq]; exact List.mem_cons_self k rest
      have hnd := hInv.queueNodup
      rw [hq] at hnd
      by_cases hhn : getHostname s.vms k = ""
      · rw [if_pos hhn] at h
        injection h with h2
        subst h2
        refine ⟨hInv.keysNodup, hInv.pendCount, hInv.pendWaking, hInv.wakingOpen,
          hInv.nonWakingClosed, hInv.outMatches, hInv.chFresh, hInv.outFresh,
          hInv.chOwner, hInv.logFresh, hInv.logNodup, hInv.dispatchSafe, ?_,
          ?_, ?_, ?_, hInv.statusRange⟩
        · intro k2 hk2
          exact hInv.queueRunning k2 (by rw [hq]; exact List.mem_cons_of_mem _ hk2)
        · intro k2 hk2
          cases hk2
        · exact (List.nodup_cons.mp hnd).2
        · intro k2 hk2
          cases hk2
      · rw [if_neg hhn] at h
        injection h with h2
        subst h2
        refine ⟨hInv.keysNodup, hInv.pendCount, hInv.pendWaking, hInv.wakingOpen,
          hInv.nonWakingClosed, hInv.outMatches, hInv.chFresh, hInv.outFresh,
          hInv.chOwner, hInv.logFresh, hInv.logNodup, hInv.dispatchSafe, ?_,
          ?_, ?_, ?_, hInv.statusRange⟩
        · intro k2 hk2
          exact hInv.queueRunning k2 (by rw [hq]; exact List.mem_cons_of_mem _ hk2)
        · intro k2 hk2
          injection hk2 with hk3
          cases hk3
          exact hInv.queueRunning k hkq
        · exact (List.nodup_cons.mp hnd).2
        · intro k2 hk2 hmem
          injection hk2 with hk3
          cases hk3
          exact (List.nodup_cons.mp hnd).1 hmem

theorem inv_step_watcherDone {s s' : Sys} {ok : Bool} (hInv : Inv s)
    (h : step s (.watcherDone ok) = some s') : Inv s' := by
  simp only [step] at h
  cases hcur : s.watcherCur with
  | none => simp only [hcur] at h; cases h
  | some k =>
    simp only [hcur] at h
    obtain ⟨ik, hlkk, hstk⟩ := hInv.curRunning k hcur
    cases ok with
    | false =>
      rw [if_neg (show ¬ (false = true) by decide)] at h
      injection h with h2
      subst h2
      exact ⟨hInv.keysNodup, hInv.pendCount, hInv.pendWaking, hInv.wakingOpen,
        hInv.nonWakingClosed, hInv.outMatches, hInv.chFresh, hInv.outFresh,
        hInv.chOwner, hInv.logFresh, hInv.logNodup, hInv.dispatchSafe,
        hInv.queueRunning, (by intro k2 hk2; cases hk2), hInv.queueNodup,
        (by intro k2 hk2; cases hk2), hInv.statusRange⟩
    | true =>
      rw [if_pos rfl] at h
      injection h with h2
      subst h2
      have hcorr : ∀ k2 info, lookupKey (markPaused s.vms k) k2 = some info →
          ∃ i0, lookupKey s.vms k2 = some i0 ∧ i0.hostname = info.hostname ∧
            i0.ip = info.ip ∧ i0.wakeCh = info.wakeCh ∧ i0.wakeErr = info.wakeErr ∧
            (info.status = i0.status ∨ (info.status = statusPaused ∧
              i0.status = statusRunning)) := by
        intro k2 info hlk
        rw [lookupKey_markPaused] at hlk
        by_cases hk : k2 = k
        · rw [if_pos hk] at hlk
          subst hk
          rw [hlkk] at hlk
          have hlk2 : ({ ik with status := statusPaused } : VmInfo) = info := by
            simpa using hlk
          subst hlk2
          exact ⟨ik, hlkk, rfl, rfl, rfl, rfl, Or.inr ⟨rfl, hstk⟩⟩
        · rw [if_neg hk] at hlk
          exact ⟨info, hlk, rfl, rfl, rfl, rfl, Or.inl rfl⟩
      have hcorr_rev : ∀ k2 i0, lookupKey s.vms k2 = some i0 →
          ∃ info, lookupKey (markPaused s.vms k) k2 = some info ∧
            i0.hostname = info.hostname ∧ i0.ip = info.ip ∧
            i0.wakeCh = info.wakeCh ∧ i0.wakeErr = info.wakeErr ∧
            (info.status = i0.status ∨ info.status = statusPaused) := by
        intro k2 i0 hlk
        rw [lookupKey_markPaused (k := k)]
        by_cases hk : k2 = k
        · subst hk
          rw [if_pos rfl, hlk]
          exact ⟨{ i0 with status := statusPaused }, rfl, rfl, rfl, rfl, rfl,
            Or.inr rfl⟩
        · rw [if_neg hk]
          exact ⟨i0, hlk, rfl, rfl, rfl, rfl, Or.inl rfl⟩
      constructor
      · rw [show ({ s with vms := markPaused s.vms k, watcherCur := none } : Sys).vms
            = markPaused s.vms k from rfl, markPaused_keys]
        exact hInv.keysNodup
      · exact hInv.pendCount
      · intro k2
        rw [hInv.pendWaking k2]
        constructor
        · rintro ⟨i0, hlk, hst⟩
          by_cases hk : k2 = k
          · subst hk
            rw [hlkk] at hlk
            injection hlk with hlk2
            cases hlk2
            rw [hstk] at hst
            exact absurd hst (by decide)
          · refine ⟨i0, ?_, hst⟩
            rw [lookupKey_markPaused, if_neg hk]
            exact hlk
        · rintro ⟨info, hlk, hst⟩
          obtain ⟨i0, hlk0, -, -, -, -, hst0⟩ := hcorr k2 info hlk
          rcases hst0 with hst0 | ⟨hst0, -⟩
          · exact ⟨i0, hlk0, hst0.symm.trans hst⟩
          · rw [hst] at hst0
            exact absurd hst0 (by decide)
      · intro k2 info hlk hst
        obtain ⟨i0, hlk0, -, -, hwc0, -, hst0⟩ := hcorr k2 info hlk
        rcases hst0 with hst0 | ⟨hst0, -⟩
        · obtain ⟨c, hc, hopen⟩ :=
            hInv.wakingOpen k2 i0 hlk0 (hst0.symm.trans hst)
          exact ⟨c, hwc0 ▸ hc, hopen⟩
        · rw [hst] at hst0
          exact absurd hst0 (by decide)
      · intro k2 info c hlk hst hwc
        obtain ⟨i0, hlk0, -, -, hwc0, -, hst0⟩ := hcorr k2 info hlk
        rcases hst0 with hst0 | ⟨-, hst1⟩
        · refine hInv.nonWakingClosed k2 i0 c hlk0 (fun hh => hst ?_) ?_
          · exact hst0.trans hh
          · rw [hwc0]; exact hwc
        · refine hInv.nonWakingClosed k2 i0 c hlk0 (by rw [hst1]; decide) ?_
          rw [hwc0]; exact hwc
      · intro k2 info c out hlk hwc hco
        obtain ⟨i0, hlk0, -, hip0, hwc0, hwe0, -⟩ := hcorr k2 info hlk
        have := hInv.outMatches k2 i0 c out hlk0 (by rw [hwc0]; exact hwc) hco
        rw [this, hwe0, hip0]
      · intro k2 info c hlk hwc
        obtain ⟨i0, hlk0, -, -, hwc0, -, -⟩ := hcorr k2 info hlk
        exact hInv.chFresh k2 i0 c hlk0 (by rw [hwc0]; exact hwc)
      · exact hInv.outFresh
      · intro k1 k2 i1 i2 c hlk1 hlk2 hwc1 hwc2
        obtain ⟨i10, hlk10, -, -, hwc10, -, -⟩ := hcorr k1 i1 hlk1
        obtain ⟨i20, hlk20, -, -, hwc20, -, -⟩ := hcorr k2 i2 hlk2
        exact hInv.chOwner k1 k2 i10 i20 c hlk10 hlk20
          (by rw [hwc10]; exact hwc1) (by rw [hwc20]; exact hwc2)
      · exact hInv.logFresh
      · exact hInv.logNodup
      · intro t2 k2 ht2
        obtain ⟨i0, hlk0, hst0⟩ := hInv.dispatchSafe t2 k2 ht2
        obtain ⟨info, hlk2, -, -, -, -, hst2⟩ := hcorr_rev k2 i0 hlk0
        rcases hst2 with hst2 | hst2
        · exact ⟨info, hlk2, fun hh => hst0 (hst2.symm.trans hh)⟩
        · exact ⟨info, hlk2, by rw [hst2]; decide⟩
      · intro k2 hk2
        obtain ⟨i0, hlk0, hst0⟩ := hInv.queueRunning k2 hk2
        have hk2k : ¬ k2 = k := by
          intro hh
          subst hh
          exact hInv.curNotInQueue k2 hcur hk2
        refine ⟨i0, ?_, hst0⟩
        rw [lookupKey_markPaused, if_neg hk2k]
        exact hlk0
      · intro k2 hk2; cases hk2
      · exact hInv.queueNodup
      · intro k2 hk2; cases hk2
      · intro k2 info hlk
        obtain ⟨i0, hlk0, -, -, -, -, hst0⟩ := hcorr k2 info hlk
        rcases hst0 with hst0 | ⟨hst0, -⟩
        · rw [hst0]; exact hInv.statusRange k2 i0 hlk0
        · rw [hst0]; decide

theorem inv_insert {s : Sys} (hInv : Inv s) {k : Key} {v0 : VmInfo}
    (hv : lookupKey s.vms k = none) (hst4 : v0.status ≤ 4)
    (hstw : ¬ v0.status = statusWaking) (hwc : v0.wakeCh = none) :
    Inv { s with vms := insertKey s.vms k v0 } := by
  have hcorr : ∀ k2 info, lookupKey (insertKey s.vms k v0) k2 = some info →
      (info = v0 ∧ k = k2) ∨ lookupKey s.vms k2 = some info := by
    intro k2 info hlk
    rcases lookupKey_insertKey_cases hlk with ⟨hk, hi⟩ | ⟨hk, hi⟩
    · exact Or.inl ⟨hi, hk⟩
    · exact Or.inr hi
  have hold : ∀ k2 info, lookupKey s.vms k2 = some info →
      lookupKey (insertKey s.vms k v0) k2 = some info := by
    intro k2 info hlk
    rw [lookupKey_insertKey]
    by_cases hk : k = k2
    · subst hk
      rw [hv] at hlk
      cases hlk
    · rw [if_neg hk]
      exact hlk
  constructor
  · rw [show ({ s with vms := insertKey s.vms k v0 } : Sys).vms
        = insertKey s.vms k v0 from rfl]
    rw [show (insertKey s.vms k v0).map Prod.fst = k :: s.vms.map Prod.fst
        from rfl]
    exact List.nodup_cons.mpr ⟨lookupKey_none_not_mem_keys hv, hInv.keysNodup⟩
  · exact hInv.pendCount
  · intro k2
    constructor
    · intro hmem
      obtain ⟨info, hlk, hsti⟩ := (hInv.pendWaking k2).mp hmem
      exact ⟨info, hold k2 info hlk, hsti⟩
    · rintro ⟨info, hlk, hsti⟩
      rcases hcorr k2 info hlk with ⟨rfl, -⟩ | hlk0
      · exact absurd hsti hstw
      · exact (hInv.pendWaking k2).mpr ⟨info, hlk0, hsti⟩
  · intro k2 info hlk hst
    rcases hcorr k2 info hlk with ⟨rfl, -⟩ | hlk0
    · exact absurd hst hstw
    · exact hInv.wakingOpen k2 info hlk0 hst
  · intro k2 info c hlk hst hwc2
    rcases hcorr k2 info hlk with ⟨rfl, -⟩ | hlk0
    · rw [hwc] at hwc2; cases hwc2
    · exact hInv.nonWakingClosed k2 info c hlk0 hst hwc2
  · intro k2 info c out hlk hwc2 hco
    rcases hcorr k2 info hlk with ⟨rfl, -⟩ | hlk0
    · rw [hwc] at hwc2; cases hwc2
    · exact hInv.outMatches k2 info c out hlk0 hwc2 hco
  · intro k2 info c hlk hwc2
    rcases hcorr k2 info hlk with ⟨rfl, -⟩ | hlk0
    · rw [hwc] at hwc2; cases hwc2
    · exact hInv.chFresh k2 info c hlk0 hwc2
  · exact hInv.outFresh
  · intro k1 k2 i1 i2 c hlk1 hlk2 hwc1 hwc2
    rcases hcorr k1 i1 hlk1 with ⟨rfl, -⟩ | hlk10
    · rw [hwc] at hwc1; cases hwc1
    · rcases hcorr k2 i2 hlk2 with ⟨rfl, -⟩ | hlk20
      · rw [hwc] at hwc2; cases hwc2
      · exact hInv.chOwner k1 k2 i1 i2 c hlk10 hlk20 hwc1 hwc2
  · exact hInv.logFresh
  · exact hInv.logNodup
  · intro t2 k2 ht2
    obtain ⟨i0, hlk0, hst0⟩ := hInv.dispatchSafe t2 k2 ht2
    exact ⟨i0, hold k2 i0 hlk0, hst0⟩
  · intro k2 hk2
    obtain ⟨i0, hlk0, hst0⟩ := hInv.queueRunning k2 hk2
    exact ⟨i0, hold k2 i0 hlk0, hst0⟩
  · intro k2 hk2
    obtain ⟨i0, hlk0, hst0⟩ := hInv.curRunning k2 hk2
    exact ⟨i0, hold k2 i0 hlk0, hst0⟩
  · exact hInv.queueNodup
  · exact hInv.curNotInQueue
  · intro k2 info hlk
    rcases hcorr k2 info hlk with ⟨rfl, -⟩ | hlk0
    · exact hst4
    · exact hInv.statusRange k2 info hlk0

theorem inv_step_lookupInsert {s s' : Sys} {k : Key} {nodes : List Node}
    {now : Int} (hInv : Inv s)
    (h : step s (.lookupInsert k nodes now) = some s') : Inv s' := by
  simp only [step] at h
  cases hv : lookupKey s.vms k with
  | some info =>
    simp only [hv] at h
    injection h with h2
    subst h2
    exact hInv
  | none =>
    simp only [hv] at h
    cases nodes with
    | nil =>
      injection h with h2
      subst h2
      exact inv_insert hInv hv (by decide) (by decide) rfl
    | cons node rest =>
      injection h with h2
      subst h2
      exact inv_insert hInv hv (nodeStatusToVm_le node.status)
        (nodeStatusToVm_ne_waking node.status) rfl

theorem inv_step_initLock {s s' : Sys} {t : Nat} (hInv : Inv s)
    (h : step s (.initLock t) = some s') : Inv s' := by
  simp only [step] at h
  cases hts : threadLookup s.threads t with
  | none => simp only [hts] at h; cases h
  | some tst =>
    simp only [hts] at h
    cases tst with
    | toWait k => simp at h
    | waiting k c => simp at h
    | dispatchedInit k =>
      cases hv : lookupKey s.vms k with
      | none => simp only [hv] at h; cases h
      | some info =>
        simp only [hv] at h
        by_cases hsw : info.status = statusWaking
        · rw [if_pos hsw] at h
          injection h with h2
          subst h2
          refine ⟨hInv.keysNodup, hInv.pendCount, hInv.pendWaking, hInv.wakingOpen,
            hInv.nonWakingClosed, hInv.outMatches, hInv.chFresh, hInv.outFresh,
            hInv.chOwner, hInv.logFresh, hInv.logNodup, ?_, hInv.queueRunning,
            hInv.curRunning, hInv.queueNodup, hInv.curNotInQueue, hInv.statusRange⟩
          intro t2 k2 ht2
          rw [threadLookup_setThread] at ht2
          by_cases hteq : t2 = t
          · rw [if_pos hteq] at ht2
            cases htl : threadLookup s.threads t <;> rw [htl] at ht2 <;> simp at ht2
          · rw [if_neg hteq] at ht2
            exact hInv.dispatchSafe t2 k2 ht2
        · rw [if_neg hsw] at h
          by_cases hsr : info.status = statusRunning
          · rw [if_pos hsr] at h
            injection h with h2
            subst h2
            refine ⟨hInv.keysNodup, hInv.pendCount, hInv.pendWaking, hInv.wakingOpen,
              hInv.nonWakingClosed, hInv.outMatches, hInv.chFresh, hInv.outFresh,
              hInv.chOwner, hInv.logFresh, hInv.logNodup, ?_, hInv.queueRunning,
              hInv.curRunning, hInv.queueNodup, hInv.curNotInQueue, hInv.statusRange⟩
            intro t2 k2 ht2
            rw [threadLookup_removeThread] at ht2
            by_cases hteq : t2 = t
            · rw [if_pos hteq] at ht2; cases ht2
            · rw [if_neg hteq] at ht2
              exact hInv.dispatchSafe t2 k2 ht2
          · rw [if_neg hsr] at h
            injection h with h2
            subst h2
            have hkp : k ∉ s.pending := by
              intro hmem
              obtain ⟨i0, hlk0, hst0⟩ := (hInv.pendWaking k).mp hmem
              rw [hv] at hlk0
              injection hlk0 with hlk1
              cases hlk1
              exact hsw hst0
            constructor
            · exact (setKey_keys s.vms k _).symm ▸ hInv.keysNodup
            · intro k2
              by_cases hk : k2 = k
              · subst hk
                simp [List.count_cons, List.count_eq_zero.mpr hkp]
              · simpa [List.count_cons, hk] using hInv.pendCount k2
            · intro k2
              by_cases hk : k2 = k
              · subst hk
                constructor
                · intro hmem0
                  exact ⟨_, lookupKey_setKey_self hv, rfl⟩
                · intro hex0
                  exact List.mem_cons_self k2 s.pending
              · constructor
                · intro hmem
                  have hmem2 : k2 ∈ s.pending := by
                    rcases List.mem_cons.mp hmem with hh | hh
                    · exact absurd hh hk
                    · exact hh
                  obtain ⟨i0, hlk0, hst0⟩ := (hInv.pendWaking k2).mp hmem2
                  refine ⟨i0, ?_, hst0⟩
                  rw [lookupKey_setKey_ne _ hk]
                  exact hlk0
                · rintro ⟨i0, hlk0, hst0⟩
                  rw [lookupKey_setKey_ne _ hk] at hlk0
                  exact List.mem_cons_of_mem _
                    ((hInv.pendWaking k2).mpr ⟨i0, hlk0, hst0⟩)
            · intro k2 info2 hlk hst
              rcases lookupKey_setKey_cases hlk with ⟨rfl, rfl⟩ | ⟨hk, hlk0⟩
              · refine ⟨s.nextCh, rfl, ?_⟩
                cases hco : chOutcome s s.nextCh with
                | none => exact hco
                | some out =>
                  exact absurd (hInv.outFresh s.nextCh out hco) (lt_irrefl _)
              · obtain ⟨c, hc, hopen⟩ := hInv.wakingOpen k2 info2 hlk0 hst
                exact ⟨c, hc, hopen⟩
            · intro k2 info2 c hlk hst hwc2
              rcases lookupKey_setKey_cases hlk with ⟨rfl, rfl⟩ | ⟨hk, hlk0⟩
              · exact absurd rfl hst
              · exact hInv.nonWakingClosed k2 info2 c hlk0 hst hwc2
            · intro k2 info2 c out hlk hwc2 hco
              rcases lookupKey_setKey_cases hlk with ⟨rfl, rfl⟩ | ⟨hk, hlk0⟩
              · injection hwc2 with hwc3
                cases hwc3
                exact absurd (hInv.outFresh _ out hco) (lt_irrefl _)
              · exact hInv.outMatches k2 info2 c out hlk0 hwc2 hco
            · intro k2 info2 c hlk hwc2
              rcases lookupKey_setKey_cases hlk with ⟨rfl, rfl⟩ | ⟨hk, hlk0⟩
              · injection hwc2 with hwc3
                cases hwc3
                exact Nat.lt_succ_self _
              · exact Nat.lt_succ_of_lt (hInv.chFresh k2 info2 c hlk0 hwc2)
            · intro c out hco
              exact Nat.lt_succ_of_lt (hInv.outFresh c out hco)
            · intro k1 k2 i1 i2 c hlk1 hlk2 hwc1 hwc2
              rcases lookupKey_setKey_cases hlk1 with ⟨rfl, rfl⟩ | ⟨hk1, hlk10⟩
              · rcases lookupKey_setKey_cases hlk2 with ⟨rfl, rfl⟩ | ⟨hk2, hlk20⟩
                · rfl
                · injection hwc1 with hwc3
                  cases hwc3
                  exact absurd (hInv.chFresh k2 i2 _ hlk20 hwc2) (lt_irrefl _)
              · rcases lookupKey_setKey_cases hlk2 with ⟨rfl, rfl⟩ | ⟨hk2, hlk20⟩
                · injection hwc2 with hwc3
                  cases hwc3
                  exact absurd (hInv.chFresh k1 i1 _ hlk10 hwc1) (lt_irrefl _)
                · exact hInv.chOwner k1 k2 i1 i2 c hlk10 hlk20 hwc1 hwc2
            · intro p hp
              rcases List.mem_cons.mp hp with hh | hh
              · subst hh
                exact Nat.lt_succ_self _
              · exact Nat.lt_succ_of_lt (hInv.logFresh p hh)
            · rw [show (((k, s.nextCh) :: s.resumeLog).map Prod.snd)
                  = s.nextCh :: s.resumeLog.map Prod.snd from rfl]
              refine List.nodup_cons.mpr ⟨?_, hInv.logNodup⟩
              intro hmem
              obtain ⟨p, hp, hsnd⟩ := List.mem_map.mp hmem
              have := hInv.logFresh p hp
              rw [hsnd] at this
              exact absurd this (lt_irrefl _)
            · intro t2 k2 ht2
              rw [threadLookup_setThread] at ht2
              by_cases hteq : t2 = t
              · rw [if_pos hteq] at ht2
                cases htl : threadLookup s.threads t <;> rw [htl] at ht2 <;>
                  simp at ht2
              · rw [if_neg hteq] at ht2
                obtain ⟨i0, hlk0, hst0⟩ := hInv.dispatchSafe t2 k2 ht2
                by_cases hk : k2 = k
                · subst hk
                  exact ⟨_, lookupKey_setKey_self hv,
                    (by decide : ¬ statusWaking = statusNotFound)⟩
                · refine ⟨i0, ?_, hst0⟩
                  rw [lookupKey_setKey_ne _ hk]
                  exact hlk0
            · intro k2 hk2
              obtain ⟨i0, hlk0, hst0⟩ := hInv.queueRunning k2 hk2
              by_cases hk : k2 = k
              · subst hk
                rw [hv] at hlk0
                injection hlk0 with hlk1
                cases hlk1
                exact absurd hst0 hsr
              · refine ⟨i0, ?_, hst0⟩
                rw [lookupKey_setKey_ne _ hk]
                exact hlk0
            · intro k2 hk2
              obtain ⟨i0, hlk0, hst0⟩ := hInv.curRunning k2 hk2
              by_cases hk : k2 = k
              · subst hk
                rw [hv] at hlk0
                injection hlk0 with hlk1
                cases hlk1
                exact absurd hst0 hsr
              · refine ⟨i0, ?_, hst0⟩
                rw [lookupKey_setKey_ne _ hk]
                exact hlk0
            · exact hInv.queueNodup
            · exact hInv.curNotInQueue
            · intro k2 info2 hlk
              rcases lookupKey_setKey_cases hlk with ⟨rfl, rfl⟩ | ⟨hk, hlk0⟩
              · exact (by decide : statusWaking ≤ 4)
              · exact hInv.statusRange k2 info2 hlk0

theorem inv_step_finish {s s' : Sys} {k : Key} {err : Option String}
    (hInv : Inv s) (h : step s (.finish k err) = some s') : Inv s' := by
  simp only [step] at h
  by_cases hmem : k ∈ s.pending
  · rw [if_pos hmem] at h
    obtain ⟨info0, hv0, hsw0⟩ := (hInv.pendWaking k).mp hmem
    obtain ⟨c, hwc, hopen⟩ := hInv.wakingOpen k info0 hv0 hsw0
    simp only [hv0, hwc] at h
    injection h with h2
    subst h2
    have hst3 : ¬ (if err = none then statusRunning else statusPaused)
        = statusWaking := by split <;> decide
    have hst4 : (if err = none then statusRunning else statusPaused) ≤ 4 := by
      split <;> decide
    have hstnf : ¬ (if err = none then statusRunning else statusPaused)
        = statusNotFound := by split <;> decide
    have hkq : k ∉ s.watcherQueue := by
      intro hq
      obtain ⟨i0, hlk0, hst0⟩ := hInv.queueRunning k hq
      rw [hv0] at hlk0
      injection hlk0 with hlk1
      cases hlk1
      rw [hsw0] at hst0
      exact absurd hst0 (by decide)
    have hkcur : ¬ s.watcherCur = some k := by
      intro hq
      obtain ⟨i0, hlk0, hst0⟩ := hInv.curRunning k hq
      rw [hv0] at hlk0
      injection hlk0 with hlk1
      cases hlk1
      rw [hsw0] at hst0
      exact absurd hst0 (by decide)
    constructor
    · exact (setKey_keys s.vms k _).symm ▸ hInv.keysNodup
    · intro k2
      exact le_trans ((s.pending.erase_sublist k).count_le k2) (hInv.pendCount k2)
    · intro k2
      by_cases hk : k2 = k
      · subst hk
        constructor
        · intro hmem2
          exfalso
          have hcount := hInv.pendCount k2
          have hnot : k2 ∉ s.pending.erase k2 := by
            rw [← List.count_pos_iff] at hmem2
            rw [List.count_erase_self] at hmem2
            omega
          exact hnot hmem2
        · rintro ⟨i2, hlk2, hst2⟩
          rcases lookupKey_setKey_cases hlk2 with ⟨-, rfl⟩ | ⟨hne, -⟩
          · exact absurd hst2 hst3
          · exact absurd rfl hne
      · rw [List.mem_erase_of_ne hk]
        rw [hInv.pendWaking k2]
        constructor
        · rintro ⟨i2, hlk2, hst2⟩
          refine ⟨i2, ?_, hst2⟩
          rw [lookupKey_setKey_ne _ hk]
          exact hlk2
        · rintro ⟨i2, hlk2, hst2⟩
          rw [lookupKey_setKey_ne _ hk] at hlk2
          exact ⟨i2, hlk2, hst2⟩
    · intro k2 i2 hlk2 hst2
      rcases lookupKey_setKey_cases hlk2 with ⟨-, rfl⟩ | ⟨hne, hlk0⟩
      · exact absurd hst2 hst3
      · obtain ⟨c2, hc2, hopen2⟩ := hInv.wakingOpen k2 i2 hlk0 hst2
        refine ⟨c2, hc2, ?_⟩
        change (if c = c2 then some (err, info0.ip) else chOutcome s c2) = none
        have hcc : ¬ c = c2 := by
          intro hcc
          subst hcc
          exact hne (hInv.chOwner k2 k i2 info0 c hlk0 hv0 hc2 hwc)
        rw [if_neg hcc]
        exact hopen2
    · intro k2 i2 c2 hlk2 hst2 hc2
      change ¬ (if c = c2 then some (err, info0.ip) else chOutcome s c2) = none
      rcases lookupKey_setKey_cases hlk2 with ⟨rfl, rfl⟩ | ⟨hne, hlk0⟩
      · have hc2c : c = c2 := by
          have hx : some c = some c2 := hc2
          injection hx
        rw [if_pos hc2c]
        exact Option.some_ne_none _
      · by_cases hcc : c = c2
        · rw [if_pos hcc]
          exact Option.some_ne_none _
        · rw [if_neg hcc]
          exact hInv.nonWakingClosed k2 i2 c2 hlk0 hst2 hc2
    · intro k2 i2 c2 out hlk2 hc2 hco
      change (if c = c2 then some (err, info0.ip) else chOutcome s c2)
        = some out at hco
      rcases lookupKey_setKey_cases hlk2 with ⟨rfl, rfl⟩ | ⟨hne, hlk0⟩
      · have hc2c : c = c2 := by
          have hx : some c = some c2 := hc2
          injection hx
        rw [if_pos hc2c] at hco
        injection hco with hco2
        rw [← hco2]
      · have hcc : ¬ c = c2 := by
          intro hcc
          subst hcc
          exact hne (hInv.chOwner k2 k i2 info0 c hlk0 hv0 hc2 hwc)
        rw [if_neg hcc] at hco
        exact hInv.outMatches k2 i2 c2 out hlk0 hc2 hco
    · intro k2 i2 c2 hlk2 hc2
      rcases lookupKey_setKey_cases hlk2 with ⟨rfl, rfl⟩ | ⟨hne, hlk0⟩
      · have hcc : c = c2 := by
          have hx : some c = some c2 := hc2
          injection hx
        exact hcc ▸ hInv.chFresh k2 info0 c hv0 hwc
      · exact hInv.chFresh k2 i2 c2 hlk0 hc2
    · intro c2 out hco
      change (if c = c2 then some (err, info0.ip) else chOutcome s c2)
        = some out at hco
      by_cases hcc : c = c2
      · subst hcc
        exact hInv.chFresh k info0 c hv0 hwc
      · rw [if_neg hcc] at hco
        exact hInv.outFresh c2 out hco
    · intro k1 k2 i1 i2 c2 hlk1 hlk2 hc1 hc2
      rcases lookupKey_setKey_cases hlk1 with ⟨rfl, rfl⟩ | ⟨hne1, hlk10⟩
      · rcases lookupKey_setKey_cases hlk2 with ⟨rfl, rfl⟩ | ⟨hne2, hlk20⟩
        · rfl
        · have hcc : c = c2 := by
            have hx : some c = some c2 := hc1
            injection hx
          exact hInv.chOwner k1 k2 info0 i2 c2 hv0 hlk20 (hcc ▸ hwc) hc2
      · rcases lookupKey_setKey_cases hlk2 with ⟨rfl, rfl⟩ | ⟨hne2, hlk20⟩
        · have hcc : c = c2 := by
            have hx : some c = some c2 := hc2
            injection hx
          exact hInv.chOwner k1 k2 i1 info0 c2 hlk10 hv0 hc1 (hcc ▸ hwc)
        · exact hInv.chOwner k1 k2 i1 i2 c2 hlk10 hlk20 hc1 hc2
    · exact hInv.logFresh
    · exact hInv.logNodup
    · intro t2 k2 ht2
      obtain ⟨i0, hlk0, hst0⟩ := hInv.dispatchSafe t2 k2 ht2
      by_cases hk : k2 = k
      · subst hk
        exact ⟨_, lookupKey_setKey_self hv0, hstnf⟩
      · refine ⟨i0, ?_, hst0⟩
        rw [lookupKey_setKey_ne _ hk]
        exact hlk0
    · intro k2 hk2
      obtain ⟨i0, hlk0, hst0⟩ := hInv.queueRunning k2 hk2
      have hk : ¬ k2 = k := by
        intro hh
        subst hh
        exact hkq hk2
      refine ⟨i0, ?_, hst0⟩
      rw [lookupKey_setKey_ne _ hk]
      exact hlk0
    · intro k2 hk2
      obtain ⟨i0, hlk0, hst0⟩ := hInv.curRunning k2 hk2
      have hk : ¬ k2 = k := by
        intro hh
        subst hh
        exact hkcur hk2
      refine ⟨i0, ?_, hst0⟩
      rw [lookupKey_setKey_ne _ hk]
      exact hlk0
    · exact hInv.queueNodup
    · exact hInv.curNotInQueue
    · intro k2 i2 hlk2
      rcases lookupKey_setKey_cases hlk2 with ⟨rfl, rfl⟩ | ⟨hne, hlk0⟩
      · exact hst4
      · exact hInv.statusRange k2 i2 hlk0
  · rw [if_neg hmem] at h
    cases h

theorem inv_step {s s' : Sys} {a : Act} (hInv : Inv s)
    (h : step s a = some s') : Inv s' := by
  cases a with
  | lookupInsert k nodes now => exact inv_step_lookupInsert hInv h
  | dispatchInit k => exact inv_step_dispatchInit hInv h
  | dispatchWait k => exact inv_step_dispatchWait hInv h
  | initLock t => exact inv_step_initLock hInv h
  | attach t => exact inv_step_attach hInv h
  | waiterReturn t => exact inv_step_waiterReturn hInv h
  | waiterTimeout t => exact inv_step_waiterTimeout hInv h
  | finish k err => exact inv_step_finish hInv h
  | touch k now => exact inv_step_touch hInv h
  | tickStart now timeout => exact inv_step_tickStart hInv h
  | watcherTake => exact inv_step_watcherTake hInv h
  | watcherDone ok => exact inv_step_watcherDone hInv h

theorem inv_runActs {acts : List Act} :
    ∀ {s s' : Sys}, Inv s → runActs s acts = some s' → Inv s' := by
  induction acts with
  | nil =>
    intro s s' hInv h
    injection h with h2
    subst h2
    exact hInv
  | cons a rest ih =>
    intro s s' hInv h
    simp only [runActs] at h
    cases hstep : step s a with
    | none => rw [hstep] at h; cases h
    | some s2 =>
      rw [hstep] at h
      exact ih (inv_step hInv hstep) h

/-- Every reachable state of the model satisfies the invariant. -/
theorem reachable_inv {s : Sys} (h : Reachable s) : Inv s := by
  obtain ⟨acts, hrun⟩ := h
  exact inv_runActs inv_init hrun

/-- One step never moves a record out of NotFound. -/
theorem step_notFound_stable {s s' : Sys} {a : Act} {k : Key} {info : VmInfo}
    (hInv : Inv s) (h : step s a = some s')
    (hv : lookupKey s.vms k = some info)
    (hnf : info.status = statusNotFound) :
    ∃ info2, lookupKey s'.vms k = some info2 ∧
      info2.status = statusNotFound := by
  cases a with
  | lookupInsert k2 nodes now =>
    simp only [step] at h
    cases hv2 : lookupKey s.vms k2 with
    | some i2 =>
      simp only [hv2] at h
      injection h with h2
      subst h2
      exact ⟨info, hv, hnf⟩
    | none =>
      simp only [hv2] at h
      have hne : ¬ k2 = k := by
        intro hh
        subst hh
        rw [hv] at hv2
        cases hv2
      cases nodes with
      | nil =>
        injection h with h2
        subst h2
        refine ⟨info, ?_, hnf⟩
        rw [show ∀ v, lookupKey (insertKey s.vms k2 v) k
            = if k2 = k then some v else lookupKey s.vms k
            from fun v => lookupKey_insertKey s.vms k2 k v]
        rw [if_neg hne]
        exact hv
      | cons node rest =>
        injection h with h2
        subst h2
        refine ⟨info, ?_, hnf⟩
        rw [show ∀ v, lookupKey (insertKey s.vms k2 v) k
            = if k2 = k then some v else lookupKey s.vms k
            from fun v => lookupKey_insertKey s.vms k2 k v]
        rw [if_neg hne]
        exact hv
  | dispatchInit k2 =>
    simp only [step] at h
    cases hv2 : lookupKey s.vms k2 with
    | none => simp only [hv2] at h; cases h
    | some i2 =>
      simp only [hv2] at h
      by_cases hst : i2.status = statusPaused ∨ i2.status = statusUnknown
      · rw [if_pos hst] at h
        injection h with h2
        subst h2
        exact ⟨info, hv, hnf⟩
      · rw [if_neg hst] at h; cases h
  | dispatchWait k2 =>
    simp only [step] at h
    cases hv2 : lookupKey s.vms k2 with
    | none => simp only [hv2] at h; cases h
    | some i2 =>
      simp only [hv2] at h
      by_cases hst : i2.status = statusWaking
      · rw [if_pos hst] at h
        injection h with h2
        subst h2
        exact ⟨info, hv, hnf⟩
      · rw [if_neg hst] at h; cases h
  | initLock t =>
    simp only [step] at h
    cases hts : threadLookup s.threads t with
    | none => simp only [hts] at h; cases h
    | some tst =>
      simp only [hts] at h
      cases tst with
      | toWait k2 => simp at h
      | waiting k2 c => simp at h
      | dispatchedInit k2 =>
        cases hv2 : lookupKey s.vms k2 with
        | none => simp only [hv2] at h; cases h
        | some i2 =>
          simp only [hv2] at h
          obtain ⟨i3, hlk3, hst3⟩ := hInv.dispatchSafe t k2 hts
          rw [hv2] at hlk3
          injection hlk3 with hlk4
          subst hlk4
          have hne : ¬ k2 = k := by
            intro hh
            subst hh
            rw [hv] at hv2
            injection hv2 with hv3
            subst hv3
            exact hst3 hnf
          by_cases hsw : i2.status = statusWaking
          · rw [if_pos hsw] at h
            injection h with h2
            subst h2
            exact ⟨info, hv, hnf⟩
          · rw [if_neg hsw] at h
            by_cases hsr : i2.status = statusRunning
            · rw [if_pos hsr] at h
              injection h with h2
              subst h2
              exact ⟨info, hv, hnf⟩
            · rw [if_neg hsr] at h
              injection h with h2
              subst h2
              refine ⟨info, ?_, hnf⟩
              rw [lookupKey_setKey_ne _ (fun hh => hne hh.symm)]
              exact hv
  | attach t =>
    simp only [step] at h
    cases hts : threadLookup s.threads t with
    | none => simp only [hts] at h; cases h
    | some tst =>
      simp only [hts] at h
      cases tst with
      | dispatchedInit k2 => simp at h
      | waiting k2 c => simp at h
      | toWait k2 =>
        cases hv2 : lookupKey s.vms k2 with
        | none => simp only [hv2] at h; cases h
        | some i2 =>
          simp only [hv2] at h
          cases hwc : i2.wakeCh with
          | none => simp only [hwc] at h; cases h
          | some c =>
            simp only [hwc] at h
            injection h with h2
            subst h2
            exact ⟨info, hv, hnf⟩
  | waiterReturn t =>
    simp only [step] at h
    cases hts : threadLookup s.threads t with
    | none => simp only [hts] at h; cases h
    | some tst =>
      simp only [hts] at h
      cases tst with
      | dispatchedInit k2 => simp at h
      | toWait k2 => simp at h
      | waiting k2 c =>
        cases hco : chOutcome s c with
        | none => simp only [hco] at h; cases h
        | some out =>
          simp only [hco] at h
          cases hv2 : lookupKey s.vms k2 with
          | none => simp only [hv2] at h; cases h
          | some i2 =>
            simp only [hv2] at h
            injection h with h2
            subst h2
            exact ⟨info, hv, hnf⟩
  | waiterTimeout t =>
    simp only [step] at h
    cases hts : threadLookup s.threads t with
    | none => simp only [hts] at h; cases h
    | some tst =>
      simp only [hts] at h
      cases tst with
      | dispatchedInit k2 => simp at h
      | toWait k2 => simp at h
      | waiting k2 c =>
        injection h with h2
        subst h2
        exact ⟨info, hv, hnf⟩
  | finish k2 err =>
    simp only [step] at h
    by_cases hmem : k2 ∈ s.pending
    · rw [if_pos hmem] at h
      obtain ⟨i0, hv0, hsw0⟩ := (hInv.pendWaking k2).mp hmem
      obtain ⟨c, hwc, hopen⟩ := hInv.wakingOpen k2 i0 hv0 hsw0
      simp only [hv0, hwc] at h
      injection h with h2
      subst h2
      have hne : ¬ k2 = k := by
        intro hh
        subst hh
        rw [hv] at hv0
        injection hv0 with hv1
        subst hv1
        rw [hnf] at hsw0
        exact absurd hsw0 (by decide)
      refine ⟨info, ?_, hnf⟩
      rw [lookupKey_setKey_ne _ (fun hh => hne hh.symm)]
      exact hv
    · rw [if_neg hmem] at h; cases h
  | touch k2 now =>
    simp only [step] at h
    injection h with h2
    subst h2
    obtain ⟨i2, hlk2, -, -, hst2, -, -⟩ := touch_corr_rev k2 now hv
    exact ⟨i2, hlk2, hst2 ▸ hnf⟩
  | tickStart now timeout =>
    simp only [step] at h
    by_cases hg : s.watcherQueue = [] ∧ s.watcherCur = none
    · rw [if_pos hg] at h
      injection h with h2
      subst h2
      exact ⟨info, hv, hnf⟩
    · rw [if_neg hg] at h; cases h
  | watcherTake =>
    simp only [step] at h
    cases hcur : s.watcherCur with
    | some k2 => simp only [hcur] at h; cases h
    | none =>
      cases hq : s.watcherQueue with
      | nil => simp only [hcur, hq] at h; cases h
      | cons k2 rest =>
        simp only [hcur, hq] at h
        by_cases hhn : getHostname s.vms k2 = ""
        · rw [if_pos hhn] at h
          injection h with h2
          subst h2
          exact ⟨info, hv, hnf⟩
        · rw [if_neg hhn] at h
          injection h with h2
          subst h2
          exact ⟨info, hv, hnf⟩
  | watcherDone ok =>
    simp only [step] at h
    cases hcur : s.watcherCur with
    | none => simp only [hcur] at h; cases h
    | some k2 =>
      simp only [hcur] at h
      cases ok with
      | false =>
        rw [if_neg (show ¬ (false = true) by decide)] at h
        injection h with h2
        subst h2
        exact ⟨info, hv, hnf⟩
      | true =>
        rw [if_pos rfl] at h
        injection h with h2
        subst h2
        obtain ⟨ik, hlkk, hstk⟩ := hInv.curRunning k2 hcur
        have hne : ¬ k2 = k := by
          intro hh
          subst hh
          rw [hv] at hlkk
          injection hlkk with hlk1
          subst hlk1
          rw [hnf] at hstk
          exact absurd hstk (by decide)
        refine ⟨info, ?_, hnf⟩
        rw [lookupKey_markPaused, if_neg (fun hh => hne hh.symm)]
        exact hv

/-- NotFound persists along any run of further actions. -/
theorem runActs_notFound_stable {acts : List Act} :
    ∀ {s s' : Sys} {k : Key} {info : VmInfo}, Inv s →
      runActs s acts = some s' → lookupKey s.vms k = some info →
      info.status = statusNotFound →
      ∃ info2, lookupKey s'.vms k = some info2 ∧
        info2.status = statusNotFound := by
  induction acts with
  | nil =>
    intro s s' k info hInv h hv hnf
    injection h with h2
    subst h2
    exact ⟨info, hv, hnf⟩
  | cons a rest ih =>
    intro s s' k info hInv h hv hnf
    simp only [runActs] at h
    cases hstep : step s a with
    | none => rw [hstep] at h; cases h
    | some s2 =>
      rw [hstep] at h
      obtain ⟨i2, hv2, hnf2⟩ := step_notFound_stable hInv hstep hv hnf
      exact ih (inv_step hInv hstep) h hv2 hnf2

/-! ## The claims -/

/-- C1 (counterexample): running `c1trace`, callers 0 and 1 coalesce on
the same wake (channel 0), which fails with "boom"; neither caller
timed out or was cancelled, yet caller 1 received the wake error while
caller 0 — whose unlocked read of `wakeErr` happened after a subsequent
wake attempt had reset it to nil — received the address.  So not all
coalesced callers receive the same eventual outcome. -/
theorem c1_counterexample :
    resultsAfter c1trace 0 = some (some (.okIp "10.0.0.5")) ∧
    resultsAfter c1trace 1 = some (some (.wakeFailed "boom")) ∧
    chOutAfter c1trace 0 = some (some (some "boom", "10.0.0.5")) :=
  ⟨rfl, rfl, rfl⟩

/-- C1 (amended): in every reachable state, at most one resume is in
flight per key; a resume is in flight for a key exactly while its
record is Waking (so a second resume is never started while one is
pending); at most one `ResumeVM` call is ever issued per wake channel
(epoch); and as long as a record still holds the channel closed by its
last wake, its `wakeErr`/`ip` equal the values recorded at close — so
every caller whose post-select read happens before the next wake
attempt begins observes that same outcome. -/
theorem c1_amended {s : Sys} (h : Reachable s) :
    (∀ k, s.pending.count k ≤ 1) ∧
    (∀ k, k ∈ s.pending ↔ ∃ info, lookupKey s.vms k = some info ∧
      info.status = statusWaking) ∧
    (s.resumeLog.map Prod.snd).Nodup ∧
    (∀ k info c out, lookupKey s.vms k = some info → info.wakeCh = some c →
      chOutcome s c = some out → out = (info.wakeErr, info.ip)) := by
  have hInv := reachable_inv h
  exact ⟨hInv.pendCount, hInv.pendWaking, hInv.logNodup, hInv.outMatches⟩

theorem c1_amended_witness :
    (∀ k, c3wakingState.pending.count k ≤ 1) ∧
    (∀ k, k ∈ c3wakingState.pending ↔
      ∃ info, lookupKey c3wakingState.vms k = some info ∧
        info.status = statusWaking) ∧
    (c3wakingState.resumeLog.map Prod.snd).Nodup ∧
    (∀ k info c out, lookupKey c3wakingState.vms k = some info →
      info.wakeCh = some c → chOutcome c3wakingState c = some out →
      out = (info.wakeErr, info.ip)) :=
  c1_amended ⟨c3waking, rfl⟩

/-- C2: when `finishWake` runs for an existing record (which is Waking
while a wake is in flight): on success the record becomes Running with
`wakeErr` nil and `lastSeen` untouched; on failure it becomes Paused
with the error stored in `wakeErr`; `lastSeen` is untouched in both
cases; and the lock section of the next `initiateWake` resets `wakeErr`
to nil. -/
theorem c2_finishWake {m : Mgr} {k : Key} {info : VmInfo} {e : String}
    (h : lookupKey m k = some info) (_hw : info.status = statusWaking) :
    lookupKey (finishWake m k none) k =
      some { info with wakeErr := none, status := statusRunning } ∧
    lookupKey (finishWake m k (some e)) k =
      some { info with wakeErr := some e, status := statusPaused } ∧
    (∀ err i2, lookupKey (finishWake m k err) k = some i2 →
      i2.lastSeen = info.lastSeen) ∧
    (∀ (m2 : Mgr) (info2 : VmInfo) (fresh : Nat), lookupKey m2 k = some info2 →
      ¬ info2.status = statusWaking → ¬ info2.status = statusRunning →
      lookupKey ((initiateWake m2 k fresh).1) k =
        some { info2 with status := statusWaking, wakeCh := some fresh, wakeErr := none }) := by
  refine ⟨?_, ?_, ?_, ?_⟩
  · simp only [finishWake, h]
    rw [lookupKey_setKey_self h]
    simp
  · simp only [finishWake, h]
    rw [lookupKey_setKey_self h]
    simp
  · intro err i2 h2
    simp only [finishWake, h] at h2
    rw [lookupKey_setKey_self h] at h2
    injection h2 with h3
    rw [← h3]
  · intro m2 info2 fresh h2 hnw hnr
    simp only [initiateWake, h2, if_neg hnw, if_neg hnr]
    rw [lookupKey_setKey_self h2]

theorem c2_witness :
    lookupKey [("a", (⟨"h1", "10.0.0.5", statusWaking, 3, some 0, none⟩ : VmInfo))]
      "a" = some ⟨"h1", "10.0.0.5", statusWaking, 3, some 0, none⟩ ∧
    (⟨"h1", "10.0.0.5", statusWaking, 3, some 0, none⟩ : VmInfo).status
      = statusWaking ∧
    (lookupKey (finishWake
        [("a", (⟨"h1", "10.0.0.5", statusWaking, 3, some 0, none⟩ : VmInfo))]
        "a" none) "a" =
      some { (⟨"h1", "10.0.0.5", statusWaking, 3, some 0, none⟩ : VmInfo) with wakeErr := none, status := statusRunning } ∧
    lookupKey (finishWake
        [("a", (⟨"h1", "10.0.0.5", statusWaking, 3, some 0, none⟩ : VmInfo))]
        "a" (some "boom")) "a" =
      some { (⟨"h1", "10.0.0.5", statusWaking, 3, some 0, none⟩ : VmInfo) with wakeErr := some "boom", status := statusPaused } ∧
    (∀ err i2, lookupKey (finishWake
        [("a", (⟨"h1", "10.0.0.5", statusWaking, 3, some 0, none⟩ : VmInfo))]
        "a" err) "a" = some i2 →
      i2.lastSeen = (⟨"h1", "10.0.0.5", statusWaking, 3, some 0, none⟩ :
        VmInfo).lastSeen) ∧
    (∀ (m2 : Mgr) (info2 : VmInfo) (fresh : Nat),
      lookupKey m2 "a" = some info2 →
      ¬ info2.status = statusWaking → ¬ info2.status = statusRunning →
      lookupKey ((initiateWake m2 "a" fresh).1) "a" =
        some { info2 with status := statusWaking, wakeCh := some fresh, wakeErr := none })) :=
  ⟨rfl, rfl, c2_finishWake rfl rfl⟩

/-- C3 (counterexample): after one successful wake (`c3trace`) the
record for "a" is Running yet still carries `wakeCh = some 0`: a record
in a non-Waking state carries a (closed) wake channel, because
`finishWake` closes the channel but never resets the field to nil. -/
theorem c3_counterexample :
    vmsAfter c3trace "a" =
      some (some ⟨"h1", "10.0.0.5", statusRunning, 0, some 0, none⟩) := rfl

/-- C3 (amended): the handle is created exactly when the record enters
Waking and is fired (closed) exactly when it leaves Waking, but the
field is not cleared; the invariant that actually holds in every
reachable state is that a record carries an OPEN (not yet closed) wake
channel iff it is Waking. -/
theorem c3_amended {s : Sys} {k : Key} {info : VmInfo} (h : Reachable s)
    (hlk : lookupKey s.vms k = some info) :
    info.status = statusWaking ↔
      ∃ c, info.wakeCh = some c ∧ chOutcome s c = none := by
  have hInv := reachable_inv h
  constructor
  · exact fun hst => hInv.wakingOpen k info hlk hst
  · rintro ⟨c, hwc, hopen⟩
    by_contra hst
    exact hInv.nonWakingClosed k info c hlk hst hwc hopen

theorem c3_amended_witness :
    (⟨"h1", "10.0.0.5", statusWaking, 0, some 0, none⟩ : VmInfo).status
        = statusWaking ↔
      ∃ c, (⟨"h1", "10.0.0.5", statusWaking, 0, some 0, none⟩ :
          VmInfo).wakeCh = some c ∧ chOutcome c3wakingState c = none :=
  c3_amended (k := "a") ⟨c3waking, rfl⟩ rfl

/-- C4: a key with a cached record never triggers a describe call:
`lookup` returns the cached record with the describe flag false for any
describe outcome, and `ensureRunning`'s switch returns the cached ip
immediately for a Running record and a not-found failure for a NotFound
record. -/
theorem c4_cached_no_describe {m : Mgr} {kR kN : Key} {iR iN : VmInfo}
    (hR : lookupKey m kR = some iR) (hN : lookupKey m kN = some iN)
    (hRs : iR.status = statusRunning) (hNs : iN.status = statusNotFound) :
    (∀ dr now, lookup m kR dr now = (m, .ok iR, false)) ∧
    (∀ dr now, lookup m kN dr now = (m, .ok iN, false)) ∧
    ensureRunningSwitch iR = .ran iR.ip ∧
    ensureRunningSwitch iN = .notFound := by
  refine ⟨?_, ?_, ?_, ?_⟩
  · intro dr now
    simp [lookup, hR]
  · intro dr now
    simp [lookup, hN]
  · rw [ensureRunningSwitch, if_neg (by rw [hRs]; decide), if_pos hRs]
  · rw [ensureRunningSwitch, if_pos hNs]

theorem c4_witness :
    lookupKey [("r", (⟨"h1", "10.0.0.5", statusRunning, 0, none, none⟩ : VmInfo)),
               ("n", (⟨"", "", statusNotFound, 0, none, none⟩ : VmInfo))] "r" =
      some ⟨"h1", "10.0.0.5", statusRunning, 0, none, none⟩ ∧
    lookupKey [("r", (⟨"h1", "10.0.0.5", statusRunning, 0, none, none⟩ : VmInfo)),
               ("n", (⟨"", "", statusNotFound, 0, none, none⟩ : VmInfo))] "n" =
      some ⟨"", "", statusNotFound, 0, none, none⟩ ∧
    ((∀ dr now, lookup
        [("r", (⟨"h1", "10.0.0.5", statusRunning, 0, none, none⟩ : VmInfo)),
         ("n", (⟨"", "", statusNotFound, 0, none, none⟩ : VmInfo))] "r" dr now =
      ([("r", (⟨"h1", "10.0.0.5", statusRunning, 0, none, none⟩ : VmInfo)),
        ("n", (⟨"", "", statusNotFound, 0, none, none⟩ : VmInfo))],
       .ok ⟨"h1", "10.0.0.5", statusRunning, 0, none, none⟩, false)) ∧
    (∀ dr now, lookup
        [("r", (⟨"h1", "10.0.0.5", statusRunning, 0, none, none⟩ : VmInfo)),
         ("n", (⟨"", "", statusNotFound, 0, none, none⟩ : VmInfo))] "n" dr now =
      ([("r", (⟨"h1", "10.0.0.5", statusRunning, 0, none, none⟩ : VmInfo)),
        ("n", (⟨"", "", statusNotFound, 0, none, none⟩ : VmInfo))],
       .ok ⟨"", "", statusNotFound, 0, none, none⟩, false)) ∧
    ensureRunningSwitch ⟨"h1", "10.0.0.5", statusRunning, 0, none, none⟩ =
      .ran (⟨"h1", "10.0.0.5", statusRunning, 0, none, none⟩ : VmInfo).ip ∧
    ensureRunningSwitch ⟨"", "", statusNotFound, 0, none, none⟩ = .notFound) :=
  ⟨rfl, rfl, c4_cached_no_describe rfl rfl rfl rfl⟩

/-- C5: `idleApps` returns exactly the keys of Running records with
`now - lastSeen > timeout` (strict); it mutates nothing (the tick-start
step changes no manager state, only the watcher's worklist); and after
`touchLastSeen` sets `lastSeen` to now the key is no longer eligible
(for a nonnegative duration, which is what a duration is). -/
theorem c5_idleApps {m : Mgr} (now timeout : Int) (k : Key)
    (hnd : (m.map Prod.fst).Nodup) (hd : 0 ≤ timeout) :
    (k ∈ idleApps m now timeout ↔
      ∃ info, lookupKey m k = some info ∧ info.status = statusRunning ∧
        now - info.lastSeen > timeout) ∧
    k ∉ idleApps (touchLastSeen m k now) now timeout ∧
    (∀ (s s2 : Sys), step s (.tickStart now timeout) = some s2 →
      s2.vms = s.vms ∧ s2.pending = s.pending ∧ s2.threads = s.threads ∧
      s2.chOut = s.chOut ∧ s2.resumeLog = s.resumeLog ∧
      s2.watcherQueue = idleApps s.vms now timeout) := by
  refine ⟨mem_idleApps m now timeout k hnd, ?_, ?_⟩
  · intro hk
    have hnd2 : ((touchLastSeen m k now).map Prod.fst).Nodup := by
      rw [touchLastSeen_keys]
      exact hnd
    obtain ⟨info, hlk, hst, hidle⟩ :=
      (mem_idleApps _ now timeout k hnd2).mp hk
    rw [lookupKey_touchLastSeen, if_pos rfl] at hlk
    cases hv : lookupKey m k with
    | none => rw [hv] at hlk; cases hlk
    | some i0 =>
      rw [hv] at hlk
      have hlk2 : ({ i0 with lastSeen := now } : VmInfo) = info := by
        simpa using hlk
      rw [← hlk2] at hidle
      simp only [sub_self] at hidle
      omega
  · intro s s2 hstep
    simp only [step] at hstep
    by_cases hg : s.watcherQueue = [] ∧ s.watcherCur = none
    · rw [if_pos hg] at hstep
      injection hstep with h2
      subst h2
      exact ⟨rfl, rfl, rfl, rfl, rfl, rfl⟩
    · rw [if_neg hg] at hstep
      cases hstep

theorem c5_witness :
    ((List.map Prod.fst
      [("a", (⟨"h1", "10.0.0.5", statusRunning, 0, none, none⟩ : VmInfo))]).Nodup ∧
    (0 : Int) ≤ 3) ∧
    ((("a" : Key) ∈ idleApps
        [("a", (⟨"h1", "10.0.0.5", statusRunning, 0, none, none⟩ : VmInfo))]
        10 3 ↔
      ∃ info, lookupKey
        [("a", (⟨"h1", "10.0.0.5", statusRunning, 0, none, none⟩ : VmInfo))]
        "a" = some info ∧ info.status = statusRunning ∧
        (10 : Int) - info.lastSeen > 3) ∧
    ("a" : Key) ∉ idleApps (touchLastSeen
        [("a", (⟨"h1", "10.0.0.5", statusRunning, 0, none, none⟩ : VmInfo))]
        "a" 10) 10 3 ∧
    (∀ (s s2 : Sys), step s (.tickStart 10 3) = some s2 →
      s2.vms = s.vms ∧ s2.pending = s.pending ∧ s2.threads = s.threads ∧
      s2.chOut = s.chOut ∧ s2.resumeLog = s.resumeLog ∧
      s2.watcherQueue = idleApps s.vms 10 3)) :=
  ⟨⟨by decide, by decide⟩, c5_idleApps 10 3 "a" (by decide) (by decide)⟩

/-- C6: NotFound is terminal: from any reachable state, any further run
of the model leaves a NotFound record NotFound (no operation — lookup,
ensureRunning, touchLastSeen, markPaused or finishWake — ever moves it,
given the call discipline of this program: the watcher only pauses keys
that were Running). -/
theorem c6_notFound_terminal {s s2 : Sys} {acts : List Act} {k : Key}
    {info : VmInfo} (h : Reachable s) (hrun : runActs s acts = some s2)
    (hv : lookupKey s.vms k = some info)
    (hnf : info.status = statusNotFound) :
    ∃ info2, lookupKey s2.vms k = some info2 ∧
      info2.status = statusNotFound :=
  runActs_notFound_stable (reachable_inv h) hrun hv hnf

theorem c6_witness :
    ∃ info2, lookupKey nfTouchedState.vms "a" = some info2 ∧
      info2.status = statusNotFound :=
  @c6_notFound_terminal nfState nfTouchedState [.touch "a" 5] "a"
    ⟨"", "", statusNotFound, 0, none, none⟩
    ⟨nfTrace, rfl⟩ rfl rfl rfl

/-- C7: the deferred `recover` in `runIdleWatcher` sits at function
scope, so a fault in one tick body unwinds the loop, is logged by the
deferred function, and `runIdleWatcher` returns: with a fault at the
first of two scheduled ticks, only one tick body ever starts and the
watcher goroutine is no longer alive, so no later tick runs —
contradicting the spec's "continue ticking on the next interval". -/
theorem c7_watcher_dies_on_tick_fault :
    runIdleWatcher [true, false] = (1, false) := rfl

/-- C8: lookup fails iff its describe call fails: a cached key never
fails and never describes; on a miss a describe failure is propagated
(wrapped) with the manager state left unchanged, while a describe
success always yields a record; and because nothing was cached, a
subsequent lookup of the failed key performs describe again. -/
theorem c8_lookup_error_propagation {m : Mgr} {k k2 : Key} {info : VmInfo}
    (hhit : lookupKey m k = some info) (hmiss : lookupKey m k2 = none)
    (e : String) (dr2 : Except String (List Node)) (now now2 : Int) :
    (∀ dr, lookup m k dr now = (m, .ok info, false)) ∧
    lookup m k2 (.error e) now =
      (m, .error ("fetching host group \"" ++ k2 ++ "\": " ++ e), true) ∧
    (∀ nodes, ∃ i2, lookup m k2 (.ok nodes) now =
      (insertKey m k2 i2, .ok i2, true)) ∧
    (lookup ((lookup m k2 (.error e) now).1) k2 dr2 now2).2.2 = true := by
  refine ⟨?_, ?_, ?_, ?_⟩
  · intro dr
    simp [lookup, hhit]
  · simp [lookup, hmiss]
  · intro nodes
    cases nodes with
    | nil =>
      exact ⟨⟨"", "", statusNotFound, 0, none, none⟩, by simp [lookup, hmiss]⟩
    | cons node rest =>
      exact ⟨⟨node.hostname, node.ip, nodeStatusToVm node.status, now, none,
        none⟩, by simp [lookup, hmiss]⟩
  · have h1 : (lookup m k2 (.error e) now).1 = m := by simp [lookup, hmiss]
    rw [h1]
    cases dr2 with
    | error e2 => simp [lookup, hmiss]
    | ok nodes =>
      cases nodes with
      | nil => simp [lookup, hmiss]
      | cons node rest => simp [lookup, hmiss]

theorem c8_witness :
    lookupKey [("b", (⟨"h1", "10.0.0.5", statusRunning, 0, none, none⟩ :
      VmInfo))] "b" = some ⟨"h1", "10.0.0.5", statusRunning, 0, none, none⟩ ∧
    lookupKey [("b", (⟨"h1", "10.0.0.5", statusRunning, 0, none, none⟩ :
      VmInfo))] "a" = none ∧
    ((∀ dr, lookup [("b", (⟨"h1", "10.0.0.5", statusRunning, 0, none, none⟩ :
        VmInfo))] "b" dr 1 =
      ([("b", (⟨"h1", "10.0.0.5", statusRunning, 0, none, none⟩ : VmInfo))],
        .ok ⟨"h1", "10.0.0.5", statusRunning, 0, none, none⟩, false)) ∧
    lookup [("b", (⟨"h1", "10.0.0.5", statusRunning, 0, none, none⟩ :
        VmInfo))] "a" (.error "boom") 1 =
      ([("b", (⟨"h1", "10.0.0.5", statusRunning, 0, none, none⟩ : VmInfo))],
        .error ("fetching host group \"" ++ "a" ++ "\": " ++ "boom"), true) ∧
    (∀ nodes, ∃ i2, lookup [("b", (⟨"h1", "10.0.0.5", statusRunning, 0, none,
        none⟩ : VmInfo))] "a" (.ok nodes) 1 =
      (insertKey [("b", (⟨"h1", "10.0.0.5", statusRunning, 0, none, none⟩ :
        VmInfo))] "a" i2, .ok i2, true)) ∧
    (lookup ((lookup [("b", (⟨"h1", "10.0.0.5", statusRunning, 0, none, none⟩ :
        VmInfo))] "a" (.error "boom") 1).1) "a" (.error "bam") 2).2.2 = true) :=
  ⟨rfl, rfl, @c8_lookup_error_propagation
    [("b", (⟨"h1", "10.0.0.5", statusRunning, 0, none, none⟩ : VmInfo))]
    "b" "a" ⟨"h1", "10.0.0.5", statusRunning, 0, none, none⟩
    rfl rfl "boom" (.error "bam") 1 2⟩

/-- C9 (counterexample): on a cache miss whose describe result reports
a Paused node, `lookup` creates the record with `lastSeen` set to now
(7 here) even though the record's state is Paused — so `lastActivity`
is written on a non-Running record, refuting the claim. -/
theorem c9_counterexample :
    (lookup [] "a" (.ok [⟨"h1", "10.0.0.5", "Paused"⟩]) 7).1 =
      [("a", ⟨"h1", "10.0.0.5", statusPaused, 7, none, none⟩)] := by decide

/-- C9 (amended): `lastSeen` is written at record creation for any
found node regardless of its state (a NotFound record gets the zero
timestamp), and by `touchLastSeen` whenever the record exists,
regardless of its state; `finishWake` and `markPaused` never write it. -/
theorem c9_amended {m : Mgr} {k : Key} {info : VmInfo} (now : Int)
    (err : Option String) (h : lookupKey m k = some info) :
    lookupKey (touchLastSeen m k now) k =
      some { info with lastSeen := now } ∧
    (∀ i2, lookupKey (finishWake m k err) k = some i2 →
      i2.lastSeen = info.lastSeen) ∧
    (∀ i2, lookupKey (markPaused m k) k = some i2 →
      i2.lastSeen = info.lastSeen) ∧
    (∀ (k2 : Key) node rest (now2 : Int), lookupKey m k2 = none →
      lookupKey (lookup m k2 (.ok (node :: rest)) now2).1 k2 =
        some ⟨node.hostname, node.ip, nodeStatusToVm node.status, now2,
          none, none⟩) ∧
    (∀ (k2 : Key) (now2 : Int), lookupKey m k2 = none →
      lookupKey (lookup m k2 (.ok []) now2).1 k2 =
        some ⟨"", "", statusNotFound, 0, none, none⟩) := by
  refine ⟨?_, ?_, ?_, ?_, ?_⟩
  · simp only [touchLastSeen, h]
    rw [lookupKey_setKey_self h]
  · intro i2 h2
    simp only [finishWake, h] at h2
    rw [lookupKey_setKey_self h] at h2
    injection h2 with h3
    rw [← h3]
  · intro i2 h2
    simp only [markPaused, h] at h2
    rw [lookupKey_setKey_self h] at h2
    injection h2 with h3
    rw [← h3]
  · intro k2 node rest now2 hm
    simp [lookup, hm, lookupKey_insertKey]
  · intro k2 now2 hm
    simp [lookup, hm, lookupKey_insertKey]

theorem c9_amended_witness :
    lookupKey [("a", (⟨"h1", "10.0.0.5", statusPaused, 2, none, none⟩ :
      VmInfo))] "a" = some ⟨"h1", "10.0.0.5", statusPaused, 2, none, none⟩ ∧
    (lookupKey (touchLastSeen [("a", (⟨"h1", "10.0.0.5", statusPaused, 2,
        none, none⟩ : VmInfo))] "a" 9) "a" =
      some { (⟨"h1", "10.0.0.5", statusPaused, 2, none, none⟩ : VmInfo) with lastSeen := 9 } ∧
    (∀ i2, lookupKey (finishWake [("a", (⟨"h1", "10.0.0.5", statusPaused, 2,
        none, none⟩ : VmInfo))] "a" (some "boom")) "a" = some i2 →
      i2.lastSeen = (⟨"h1", "10.0.0.5", statusPaused, 2, none, none⟩ :
        VmInfo).lastSeen) ∧
    (∀ i2, lookupKey (markPaused [("a", (⟨"h1", "10.0.0.5", statusPaused, 2,
        none, none⟩ : VmInfo))] "a") "a" = some i2 →
      i2.lastSeen = (⟨"h1", "10.0.0.5", statusPaused, 2, none, none⟩ :
        VmInfo).lastSeen) ∧
    (∀ (k2 : Key) node rest (now2 : Int),
      lookupKey [("a", (⟨"h1", "10.0.0.5", statusPaused, 2, none, none⟩ :
        VmInfo))] k2 = none →
      lookupKey (lookup [("a", (⟨"h1", "10.0.0.5", statusPaused, 2, none,
        none⟩ : VmInfo))] k2 (.ok (node :: rest)) now2).1 k2 =
        some ⟨node.hostname, node.ip, nodeStatusToVm node.status, now2,
          none, none⟩) ∧
    (∀ (k2 : Key) (now2 : Int),
      lookupKey [("a", (⟨"h1", "10.0.0.5", statusPaused, 2, none, none⟩ :
        VmInfo))] k2 = none →
      lookupKey (lookup [("a", (⟨"h1", "10.0.0.5", statusPaused, 2, none,
        none⟩ : VmInfo))] k2 (.ok []) now2).1 k2 =
        some ⟨"", "", statusNotFound, 0, none, none⟩)) :=
  ⟨rfl, c9_amended 9 (some "boom") rfl⟩

/-- C10: in every reachable state every stored status is one of the
five declared constants, and `ensureRunning`'s switch therefore never
reaches its final "unexpected status" branch. -/
theorem c10_no_unexpected {s : Sys} {k : Key} {info : VmInfo}
    (h : Reachable s) (hlk : lookupKey s.vms k = some info) :
    (info.status = statusUnknown ∨ info.status = statusRunning ∨
      info.status = statusPaused ∨ info.status = statusWaking ∨
      info.status = statusNotFound) ∧
    ¬ ensureRunningSwitch info = Dispatch.unexpected := by
  have hr := (reachable_inv h).statusRange k info hlk
  constructor
  · unfold statusUnknown statusRunning statusPaused statusWaking
      statusNotFound
    omega
  · intro hc
    unfold ensureRunningSwitch at hc
    by_cases h4 : info.status = statusNotFound
    · rw [if_pos h4] at hc; cases hc
    · rw [if_neg h4] at hc
      by_cases h1 : info.status = statusRunning
      · rw [if_pos h1] at hc; cases hc
      · rw [if_neg h1] at hc
        by_cases h3 : info.status = statusWaking
        · rw [if_pos h3] at hc; cases hc
        · rw [if_neg h3] at hc
          by_cases h20 : info.status = statusPaused ∨
              info.status = statusUnknown
          · rw [if_pos h20] at hc; cases hc
          · push_neg at h20
            unfold statusUnknown statusRunning statusPaused statusWaking
              statusNotFound at *
            omega

theorem c10_witness :
    ((⟨"", "", statusNotFound, 0, none, none⟩ : VmInfo).status
        = statusUnknown ∨
      (⟨"", "", statusNotFound, 0, none, none⟩ : VmInfo).status
        = statusRunning ∨
      (⟨"", "", statusNotFound, 0, none, none⟩ : VmInfo).status
        = statusPaused ∨
      (⟨"", "", statusNotFound, 0, none, none⟩ : VmInfo).status
        = statusWaking ∨
      (⟨"", "", statusNotFound, 0, none, none⟩ : VmInfo).status
        = statusNotFound) ∧
    ¬ ensureRunningSwitch ⟨"", "", statusNotFound, 0, none, none⟩ =
      Dispatch.unexpected :=
  c10_no_unexpected (k := "a") ⟨nfTrace, rfl⟩ rfl

end Slicer
